import Mathlib

/-!
Shallow embedding of the VetCare clinic system's appointment availability
engine and stock allocator, together with proofs about the claims of the
specification.

Conventions of the embedding:
* Python `datetime` values are modelled as `Nat` minutes on a single
  absolute time line; `date` values (used only as stock expiration dates
  and sort keys) are modelled as `Nat` day ordinals, with `date.max`
  rendered as the ordinal of 9999-12-31.
* Python `int` quantities are modelled as `Int` (they may go negative).
* A Python method that can `raise ValueError` is modelled as a function
  into `Except` an error type whose constructors correspond one-to-one to
  the `raise` sites of the source.
* The repositories are modelled as explicit state: a list of stock rows /
  appointment rows, with `update` replacing the row with the same id.
-/

deriving instance DecidableEq for Except

namespace VetCare

/-! ## Stock entities (`src/domain/entities/stock.py`) -/

/-- The `StockMovementType` enum. -/
inductive StockMovementType where
  | purchase
  | sale
  | adjustment
  | «return»
  | expired
  | damaged
deriving DecidableEq, Repr

/-- Errors raised (as `ValueError`) by the stock entities and the
inventory service; one constructor per `raise` site. -/
inductive InvError where
  | productNotFound
  | inactiveProduct
  | invalidProductId
  | zeroQuantity
  | negativeCurrentQuantity
  | insufficientStock (available requested : Int)
  | insufficientStockToReserve (available requested : Int)
  | noAdjustmentNeeded
  | nonPositiveAdd
  | nonPositiveRemove
  | removeExceedsAvailable
  | nonPositiveReserve
  | reserveExceedsAvailable
  | nonPositiveRelease
  | releaseExceedsReserved
deriving DecidableEq, Repr

/-- The `StockMovement` dataclass. -/
structure StockMovement where
  id : Option Nat
  product_id : Int
  movement_type : StockMovementType
  quantity : Int
  reference_id : Option Int := none
  reference_type : Option String := none
  notes : Option String := none
  created_by : Option Int := none
deriving DecidableEq, Repr

/-- `StockMovement.__post_init__`: validates the product id and a nonzero
quantity, then normalizes the sign of `quantity` according to the movement
type (outbound types `sale`/`expired`/`damaged` are forced negative,
inbound types `purchase`/`return` are forced positive). Constructing a
`StockMovement` in Python runs this validation, so the embedding builds
movements only through this function. -/
def StockMovement.make (product_id : Int) (movement_type : StockMovementType)
    (quantity : Int) (reference_id : Option Int) (reference_type : Option String)
    (notes : Option String) (created_by : Option Int) : Except InvError StockMovement :=
  if product_id ≤ 0 then
    .error .invalidProductId
  else if quantity = 0 then
    .error .zeroQuantity
  else
    let quantity :=
      if (movement_type = .sale ∨ movement_type = .expired ∨ movement_type = .damaged)
          ∧ quantity > 0 then
        -(quantity.natAbs : Int)
      else if (movement_type = .purchase ∨ movement_type = .«return») ∧ quantity < 0 then
        (quantity.natAbs : Int)
      else
        quantity
    .ok { id := none, product_id, movement_type, quantity,
          reference_id, reference_type, notes, created_by }

/-- The `Stock` dataclass (one stock lot). -/
structure Stock where
  id : Nat
  product_id : Int
  current_quantity : Int
  reserved_quantity : Int := 0
  expiration_date : Option Nat := none
  batch_number : Option String := none
  location : Option String := none
deriving DecidableEq, Repr

/-- `Stock.available_quantity`. -/
def Stock.available_quantity (s : Stock) : Int :=
  s.current_quantity - s.reserved_quantity

/-- The checks of `Stock.__post_init__`, as a predicate: positive product
id, non-negative current and reserved quantity, reserved not exceeding
current (equivalently `available_quantity ≥ 0`). -/
def Stock.Valid (s : Stock) : Prop :=
  0 < s.product_id ∧ 0 ≤ s.current_quantity ∧ 0 ≤ s.reserved_quantity ∧
    s.reserved_quantity ≤ s.current_quantity

instance (s : Stock) : Decidable s.Valid := by
  unfold Stock.Valid; infer_instance

/-- `Stock.__post_init__` as a constructor-time check (run when Python
code builds a `Stock(...)` value). -/
def Stock.validate (s : Stock) : Except InvError Stock :=
  if s.product_id ≤ 0 then .error .invalidProductId
  else if s.current_quantity < 0 then .error .negativeCurrentQuantity
  else if s.reserved_quantity < 0 then .error .invalidProductId
  else if s.reserved_quantity > s.current_quantity then .error .invalidProductId
  else .ok s

/-- `Stock.add_stock`. -/
def Stock.add_stock (s : Stock) (quantity : Int) : Except InvError Stock :=
  if quantity ≤ 0 then .error .nonPositiveAdd
  else .ok { s with current_quantity := s.current_quantity + quantity }

/-- `Stock.remove_stock`. -/
def Stock.remove_stock (s : Stock) (quantity : Int) : Except InvError Stock :=
  if quantity ≤ 0 then .error .nonPositiveRemove
  else if quantity > s.available_quantity then .error .removeExceedsAvailable
  else .ok { s with current_quantity := s.current_quantity - quantity }

/-- `Stock.reserve_stock`. -/
def Stock.reserve_stock (s : Stock) (quantity : Int) : Except InvError Stock :=
  if quantity ≤ 0 then .error .nonPositiveReserve
  else if quantity > s.available_quantity then .error .reserveExceedsAvailable
  else .ok { s with reserved_quantity := s.reserved_quantity + quantity }

/-- `Stock.release_reservation`. -/
def Stock.release_reservation (s : Stock) (quantity : Int) : Except InvError Stock :=
  if quantity ≤ 0 then .error .nonPositiveRelease
  else if quantity > s.reserved_quantity then .error .releaseExceedsReserved
  else .ok { s with reserved_quantity := s.reserved_quantity - quantity }

/-! ## Inventory service (`src/services/inventory_service.py`) -/

/-- The slice of the `Product` entity the inventory service consults. -/
structure Product where
  id : Int
  is_active : Bool
deriving DecidableEq, Repr

/-- The persistent state seen by the inventory service: the stock rows and
the append-only movement ledger of the stock repository. -/
structure InvState where
  stocks : List Stock
  movements : List StockMovement
deriving DecidableEq, Repr

/-- `SQLAlchemyStockRepository.update_stock`: replace the row with the
same primary key. -/
def updateStock (stocks : List Stock) (s' : Stock) : List Stock :=
  stocks.map fun t => if t.id = s'.id then s' else t

/-- `find_stock_by_product_id`. -/
def findStockByProduct (st : InvState) (product_id : Int) : List Stock :=
  st.stocks.filter fun s => s.product_id == product_id

/-- `get_available_stock_by_product`: `SUM(current_quantity - reserved_quantity)`
over the product's rows. -/
def availableStockByProduct (st : InvState) (product_id : Int) : Int :=
  ((findStockByProduct st product_id).map Stock.available_quantity).sum

/-- `get_total_stock_by_product`: `SUM(current_quantity)` over the
product's rows. -/
def totalStockByProduct (st : InvState) (product_id : Int) : Int :=
  ((findStockByProduct st product_id).map Stock.current_quantity).sum

/-- `date.max` (9999-12-31) as a proleptic-Gregorian day ordinal; every
real Python `date` has a strictly smaller ordinal. -/
def dateMax : Nat := 3652059

/-- The sort key `x.expiration_date or date.max` of the FIFO sort
(a `date` is always truthy, `None` is falsy). -/
def expKey (s : Stock) : Nat :=
  s.expiration_date.getD dateMax

/-- Python's `list.sort(key=...)` is a stable sort by the key; a stable
sort by a total preorder has a unique result, so the embedding uses
insertion sort (also stable) with the same comparison. -/
def fifoSort (stocks : List Stock) : List Stock :=
  List.insertionSort (fun a b => expKey a ≤ expKey b) stocks

/-- The greedy distribution loop of `InventoryService.remove_stock`:
walk the sorted lots, take `min(remaining, lot.available)` from each,
persisting each touched lot, until nothing remains. -/
def consumeLoop (stocks : List Stock) :
    List Stock → Int → List Stock → Except InvError (List Stock × List Stock)
  | [], _, affected => .ok (stocks, affected.reverse)
  | s :: rest, remaining, affected =>
    if remaining ≤ 0 then .ok (stocks, affected.reverse)
    else
      let qty := min remaining s.available_quantity
      match s.remove_stock qty with
      | .error e => .error e
      | .ok s' => consumeLoop (updateStock stocks s') rest (remaining - qty) (s' :: affected)

/-- The greedy loop of `InventoryService.reserve_stock` (mutates
`reserved_quantity` instead of `current_quantity`). -/
def reserveLoop (stocks : List Stock) :
    List Stock → Int → List Stock → Except InvError (List Stock × List Stock)
  | [], _, affected => .ok (stocks, affected.reverse)
  | s :: rest, remaining, affected =>
    if remaining ≤ 0 then .ok (stocks, affected.reverse)
    else
      let qty := min remaining s.available_quantity
      match s.reserve_stock qty with
      | .error e => .error e
      | .ok s' => reserveLoop (updateStock stocks s') rest (remaining - qty) (s' :: affected)

/-- The greedy loop of `InventoryService.release_reservation` (takes
`min(remaining, lot.reserved_quantity)` from each lot). -/
def releaseLoop (stocks : List Stock) :
    List Stock → Int → List Stock → Except InvError (List Stock × List Stock)
  | [], _, affected => .ok (stocks, affected.reverse)
  | s :: rest, remaining, affected =>
    if remaining ≤ 0 then .ok (stocks, affected.reverse)
    else
      let qty := min remaining s.reserved_quantity
      match s.release_reservation qty with
      | .error e => .error e
      | .ok s' => releaseLoop (updateStock stocks s') rest (remaining - qty) (s' :: affected)

/-- `InventoryService.add_stock` (inbound receive). When no existing lot
matches on (batch, location, expiration) a new lot is created through the
validating `Stock` constructor; `newId` stands for the id the repository
assigns on save. (When the movement constructor raises in Python the lot
update has already been persisted; no claim depends on that partial
state, so the embedding reports just the error.) -/
def add_stock (products : List Product) (st : InvState) (product_id : Int)
    (quantity : Int) (expiration_date : Option Nat) (batch_number : Option String)
    (location : Option String) (reference_id : Option Int)
    (reference_type : Option String) (notes : Option String) (newId : Nat) :
    Except InvError (InvState × Stock) :=
  match products.find? (fun p => p.id == product_id) with
  | none => .error .productNotFound
  | some product =>
    if !product.is_active then .error .inactiveProduct
    else
      let existing := findStockByProduct st product_id
      let matching := existing.find? fun s =>
        s.batch_number == batch_number && s.location == location &&
          s.expiration_date == expiration_date
      let stockRes : Except InvError (List Stock × Stock) :=
        match matching with
        | some m0 =>
          match m0.add_stock quantity with
          | .error e => .error e
          | .ok s' => .ok (updateStock st.stocks s', s')
        | none =>
          match Stock.validate
              { id := newId, product_id, current_quantity := quantity,
                expiration_date, batch_number, location } with
          | .error e => .error e
          | .ok s => .ok (st.stocks ++ [s], s)
      match stockRes with
      | .error e => .error e
      | .ok (stocks', stock) =>
        match StockMovement.make product_id .purchase quantity reference_id
            reference_type notes none with
        | .error e => .error e
        | .ok m => .ok ({ stocks := stocks', movements := st.movements ++ [m] }, stock)

/-- `InventoryService.remove_stock` (outbound consume): product must
exist, total available must cover the request, then the FIFO-sorted lots
with positive availability are consumed greedily and a single movement is
appended with quantity `-quantity`. -/
def remove_stock (products : List Product) (st : InvState) (product_id : Int)
    (quantity : Int) (reference_id : Option Int) (reference_type : Option String)
    (notes : Option String) (movement_type : StockMovementType := .sale) :
    Except InvError (InvState × List Stock) :=
  match products.find? (fun p => p.id == product_id) with
  | none => .error .productNotFound
  | some _ =>
    let available := availableStockByProduct st product_id
    if available < quantity then .error (.insufficientStock available quantity)
    else
      let stocks := (findStockByProduct st product_id).filter
        fun s => 0 < s.available_quantity
      let sorted := fifoSort stocks
      match consumeLoop st.stocks sorted quantity [] with
      | .error e => .error e
      | .ok (stocks', affected) =>
        match StockMovement.make product_id movement_type (-quantity) reference_id
            reference_type notes none with
        | .error e => .error e
        | .ok m =>
          .ok ({ stocks := stocks', movements := st.movements ++ [m] }, affected)

/-- `InventoryService.reserve_stock`: same lot selection as consume, but
mutating reservations; writes no movement. -/
def reserve_stock (st : InvState) (product_id : Int) (quantity : Int) :
    Except InvError (InvState × List Stock) :=
  let available := availableStockByProduct st product_id
  if available < quantity then .error (.insufficientStockToReserve available quantity)
  else
    let stocks := (findStockByProduct st product_id).filter
      fun s => 0 < s.available_quantity
    let sorted := fifoSort stocks
    match reserveLoop st.stocks sorted quantity [] with
    | .error e => .error e
    | .ok (stocks', affected) => .ok ({ st with stocks := stocks' }, affected)

/-- `InventoryService.release_reservation`: walks the product's lots with
a positive reservation, in stored order (no sort), releasing
`min(remaining, lot.reserved)` from each; writes no movement. The source
performs no check of the total reserved quantity. -/
def release_reservation (st : InvState) (product_id : Int) (quantity : Int) :
    Except InvError (InvState × List Stock) :=
  let stocks := (findStockByProduct st product_id).filter
    fun s => 0 < s.reserved_quantity
  match releaseLoop st.stocks stocks quantity [] with
  | .error e => .error e
  | .ok (stocks', affected) => .ok ({ st with stocks := stocks' }, affected)

/-- `InventoryService.adjust_stock`: computes the difference against the
summed current quantity, refuses a zero difference, appends one
`adjustment` movement with the signed difference, then writes the new
total into the *first* lot found by a plain field assignment — bypassing
`Stock.__post_init__` validation. `newId` stands for the id assigned when
no lot exists and a fresh one is created. -/
def adjust_stock (st : InvState) (product_id : Int) (new_quantity : Int)
    (reason : String) (user_id : Option Int) (newId : Nat) :
    Except InvError (InvState × Stock) :=
  let current := totalStockByProduct st product_id
  let difference := new_quantity - current
  if difference = 0 then .error .noAdjustmentNeeded
  else
    match StockMovement.make product_id .adjustment difference none none
        (some ("Stock adjustment: " ++ reason)) user_id with
    | .error e => .error e
    | .ok m =>
      match findStockByProduct st product_id with
      | main :: _ =>
        let main' := { main with current_quantity := new_quantity }
        .ok ({ stocks := updateStock st.stocks main',
               movements := st.movements ++ [m] }, main')
      | [] =>
        match Stock.validate
            { id := newId, product_id, current_quantity := new_quantity } with
        | .error e => .error e
        | .ok s =>
          .ok ({ stocks := st.stocks ++ [s],
                 movements := st.movements ++ [m] }, s)

/-! ## Appointment entities (`src/domain/entities/appointment.py`) -/

/-- The `AppointmentStatus` enum. -/
inductive AppointmentStatus where
  | scheduled
  | confirmed
  | in_progress
  | completed
  | cancelled
  | no_show
deriving DecidableEq, Repr

/-- The `AppointmentType` enum. -/
inductive AppointmentType where
  | consultation
  | vaccination
  | surgery
  | emergency
  | follow_up
  | grooming
deriving DecidableEq, Repr

/-- The `UserRole` enum (`src/domain/entities/user.py`). -/
inductive UserRole where
  | admin
  | veterinarian
  | receptionist
  | assistant
deriving DecidableEq, Repr

/-- Errors raised (as `ValueError`) on the appointment paths; one
constructor per `raise` site touched by the claims. -/
inductive ApptError where
  | petIdRequired
  | petNotFound
  | inactivePet
  | veterinarianNotFound
  | notAVeterinarian
  | pastDate
  | invalidDuration
  | nonPositiveDuration
  | onlyScheduledCanBeConfirmed
  | onlyConfirmedCanBeStarted
  | onlyInProgressCanBeCompleted
  | cannotBeCancelled
deriving DecidableEq, Repr

/-- The `Appointment` dataclass. Timestamps are minutes on one absolute
time line; `duration_minutes` is in minutes (the entity only checks it is
positive). -/
structure Appointment where
  id : Nat
  pet_id : Nat
  veterinarian_id : Option Nat
  appointment_date : Nat
  duration_minutes : Nat
  appointment_type : AppointmentType
  status : AppointmentStatus
  reason : Option String := none
  notes : Option String := none
  created_by : Option Nat := none
deriving DecidableEq, Repr

/-- `Appointment.end_time`: start plus duration. -/
def Appointment.end_time (a : Appointment) : Nat :=
  a.appointment_date + a.duration_minutes

/-- The only live check of `Appointment.__post_init__` (the others are
commented out in the source): the duration must be positive. -/
def Appointment.validate (a : Appointment) : Except ApptError Appointment :=
  if a.duration_minutes = 0 then .error .nonPositiveDuration else .ok a

/-- `Appointment.can_be_modified`. -/
def Appointment.can_be_modified (a : Appointment) : Bool :=
  a.status == .scheduled || a.status == .confirmed || a.status == .in_progress

/-- `Appointment.mark_as_completed` (the entity has no `completion_notes`
attribute, so a provided note lands in `notes`). -/
def Appointment.mark_as_completed (a : Appointment) (notes : Option String) :
    Except ApptError Appointment :=
  if a.status ≠ .in_progress then .error .onlyInProgressCanBeCompleted
  else
    .ok { a with status := .completed,
                 notes := match notes with
                          | some n => some n
                          | none => a.notes }

/-- `Appointment.cancel`. -/
def Appointment.cancel (a : Appointment) (reason : Option String) :
    Except ApptError Appointment :=
  if !a.can_be_modified then .error .cannotBeCancelled
  else
    .ok { a with status := .cancelled,
                 notes := match reason with
                          | some r => some ("Cancelled: " ++ r)
                          | none => a.notes }

/-! ## Appointment service (`src/services/appointment_service.py`) and
repository (`src/infra/database/repositories/appointment_repository.py`) -/

/-- The slice of the `Pet` entity the appointment service consults. -/
structure Pet where
  id : Nat
  is_active : Bool
deriving DecidableEq, Repr

/-- The slice of the `User` entity the appointment service consults. -/
structure User where
  id : Nat
  role : UserRole
deriving DecidableEq, Repr

/-- The statuses that block a time slot in `check_availability` and
`get_availability_slots`. -/
def blocking (s : AppointmentStatus) : Bool :=
  s == .scheduled || s == .confirmed || s == .in_progress

/-- The three-case overlap filter of
`SQLAlchemyAppointmentRepository.check_availability`: the new interval
starts during an existing appointment, ends during one, or entirely
contains one (an appointment's end is its start plus its duration). -/
def overlapsQuery (a : Appointment) (start_time end_time : Nat) : Bool :=
  (a.appointment_date ≤ start_time && start_time < a.end_time) ||
  (a.appointment_date < end_time && end_time ≤ a.end_time) ||
  (start_time ≤ a.appointment_date && a.end_time ≤ end_time)

/-- `SQLAlchemyAppointmentRepository.check_availability`: true iff no
appointment of the practitioner with a blocking status passes the overlap
filter. -/
def check_availability (appts : List Appointment) (start_time end_time : Nat)
    (veterinarian_id : Nat) : Bool :=
  !(appts.any fun a =>
    a.veterinarian_id == some veterinarian_id && blocking a.status &&
      overlapsQuery a start_time end_time)

/-- The per-slot freeness test of `get_availability_slots`: the slot is
taken iff some existing appointment satisfies
`slot_start < appt.end_time ∧ slot_end > appt.appointment_date`. -/
def slotFree (existing : List Appointment) (slot_start slot_end : Nat) : Bool :=
  !(existing.any fun a =>
    slot_start < a.end_time && a.appointment_date < slot_end)

/-- The `while` loop of `get_availability_slots`: from `current`, as long
as `current + dur ≤ endT`, emit the window `(current, current + dur)` when
it is free and advance by 30 minutes. -/
def slotsFrom (existing : List Appointment) (dur endT : Nat) (current : Nat) :
    List (Nat × Nat) :=
  if _h : current + dur ≤ endT then
    (if slotFree existing current (current + dur) then [(current, current + dur)] else [])
      ++ slotsFrom existing dur endT (current + 30)
  else []
termination_by endT + 1 - current
decreasing_by omega

/-- `AppointmentService.get_availability_slots`: clinic hours are
08:00–18:00 of the target day (`dayBase` is the day's midnight in
minutes); only the practitioner's appointments with blocking status
count. -/
def get_availability_slots (appts : List Appointment) (dayBase : Nat)
    (veterinarian_id : Nat) (duration_minutes : Nat := 30) : List (Nat × Nat) :=
  let existing := appts.filter fun a =>
    a.veterinarian_id == some veterinarian_id && blocking a.status
  slotsFrom existing duration_minutes (dayBase + 18 * 60) (dayBase + 8 * 60)

/-- `AppointmentService._get_default_duration`. -/
def defaultDuration : AppointmentType → Nat
  | .consultation => 30
  | .vaccination => 15
  | .surgery => 120
  | .emergency => 60
  | .follow_up => 20
  | .grooming => 60

/-- The input dictionary of `schedule_appointment`, after the string
parsing of `_parse_appointment_datetime` (out of scope here): required
fields typed, optional fields as `Option`. -/
structure AppointmentData where
  pet_id : Nat
  veterinarian_id : Option Nat := none
  appointment_date : Nat
  appointment_type : AppointmentType
  duration_minutes : Option Nat := none
  reason : Option String := none
  notes : Option String := none
  created_by : Option Nat := none
deriving DecidableEq, Repr

/-- `AppointmentService.schedule_appointment`: validates the payload
(`_validate_appointment_data` requires a truthy `pet_id` and, when a
duration is given, `1 ≤ duration ≤ 480`), resolves pet and veterinarian,
rejects past dates, fills in the default duration, then saves the new
appointment (`newId` is the id the repository assigns). The source never
consults `check_availability` on this path. -/
def schedule_appointment (pets : List Pet) (users : List User)
    (appts : List Appointment) (now : Nat) (data : AppointmentData) (newId : Nat) :
    Except ApptError (List Appointment × Appointment) :=
  if data.pet_id = 0 then .error .petIdRequired
  else if _h : data.duration_minutes.isSome ∧
      (data.duration_minutes.iget = 0 ∨ 480 < data.duration_minutes.iget) then
    .error .invalidDuration
  else
    match pets.find? (fun p => p.id == data.pet_id) with
    | none => .error .petNotFound
    | some pet =>
      if !pet.is_active then .error .inactivePet
      else
        let vetRes : Except ApptError (Option User) :=
          match data.veterinarian_id with
          | none => .ok none
          | some vid =>
            match users.find? (fun u => u.id == vid) with
            | none => .error .veterinarianNotFound
            | some u =>
              if u.role ≠ .veterinarian ∧ u.role ≠ .admin then .error .notAVeterinarian
              else .ok (some u)
        match vetRes with
        | .error e => .error e
        | .ok vet =>
          if data.appointment_date < now then .error .pastDate
          else
            let duration := data.duration_minutes.getD
              (defaultDuration data.appointment_type)
            match Appointment.validate
                { id := newId, pet_id := pet.id,
                  veterinarian_id := vet.map User.id,
                  appointment_date := data.appointment_date,
                  duration_minutes := duration,
                  appointment_type := data.appointment_type,
                  status := .scheduled, reason := data.reason,
                  notes := data.notes, created_by := data.created_by } with
            | .error e => .error e
            | .ok appointment => .ok (appts ++ [appointment], appointment)

/-- `AppointmentService.confirm_appointment` (after the repository
lookup): only a scheduled appointment can be confirmed. -/
def confirm_appointment (a : Appointment) : Except ApptError Appointment :=
  if a.status ≠ .scheduled then .error .onlyScheduledCanBeConfirmed
  else .ok { a with status := .confirmed }

/-- `AppointmentService.start_appointment`: only a confirmed appointment
can be started. -/
def start_appointment (a : Appointment) : Except ApptError Appointment :=
  if a.status ≠ .confirmed then .error .onlyConfirmedCanBeStarted
  else .ok { a with status := .in_progress }

/-- `AppointmentService.complete_appointment`: the service requires
`in_progress`, then delegates to `mark_as_completed` (which re-checks). -/
def complete_appointment (a : Appointment) (completion_notes : Option String) :
    Except ApptError Appointment :=
  if a.status ≠ .in_progress then .error .onlyInProgressCanBeCompleted
  else a.mark_as_completed completion_notes

/-- `AppointmentService.cancel_appointment`: requires `can_be_modified`,
then delegates to `Appointment.cancel`. -/
def cancel_appointment (a : Appointment) (cancellation_reason : Option String) :
    Except ApptError Appointment :=
  if !a.can_be_modified then .error .cannotBeCancelled
  else a.cancel cancellation_reason

/-- The update dictionary of `update_appointment`; a `none` field is not
assigned (`value is not None` in the source). -/
structure AppointmentUpdate where
  appointment_date : Option Nat := none
  duration_minutes : Option Nat := none
  appointment_type : Option AppointmentType := none
  reason : Option String := none
  notes : Option String := none
deriving DecidableEq, Repr

/-- `AppointmentService.update_appointment` (after the repository
lookup): rejects a move to a past date, then assigns every provided
field. The source checks neither the appointment's status nor
`can_be_modified` on this path. -/
def update_appointment (a : Appointment) (upd : AppointmentUpdate) (now : Nat) :
    Except ApptError Appointment :=
  let dateCheck : Except ApptError Unit :=
    match upd.appointment_date with
    | some d => if d < now then .error .pastDate else .ok ()
    | none => .ok ()
  match dateCheck with
  | .error e => .error e
  | .ok _ =>
    .ok { a with
          appointment_date := upd.appointment_date.getD a.appointment_date,
          duration_minutes := upd.duration_minutes.getD a.duration_minutes,
          appointment_type := upd.appointment_type.getD a.appointment_type,
          reason := match upd.reason with
                    | some r => some r
                    | none => a.reason,
          notes := match upd.notes with
                   | some n => some n
                   | none => a.notes }

/-! ## Specification-side definitions and concrete fixtures -/

/-- How many candidate windows the slot loop still visits from `current`. -/
def candCount (dur endT current : Nat) : Nat :=
  if current + dur ≤ endT then (endT - (current + dur)) / 30 + 1 else 0

/-- A quantity summed over the rows of one product. -/
def sumBy (f : Stock → Int) (pid : Int) (stocks : List Stock) : Int :=
  ((stocks.filter fun s => s.product_id == pid).map f).sum

instance : IsTotal Stock (fun a b => expKey a ≤ expKey b) :=
  ⟨fun a b => Nat.le_total (expKey a) (expKey b)⟩

instance : IsTrans Stock (fun a b => expKey a ≤ expKey b) :=
  ⟨fun _ _ _ h1 h2 => Nat.le_trans h1 h2⟩

/-- One active product (id 1). -/
def exampleProducts : List Product := [⟨1, true⟩]

/-- A lot of 5 units expiring on a March-2024 day ordinal. -/
def lotMarch : Stock :=
  { id := 1, product_id := 1, current_quantity := 5, expiration_date := some 738946 }

/-- A lot of 10 units expiring on a June-2024 day ordinal. -/
def lotJune : Stock :=
  { id := 2, product_id := 1, current_quantity := 10, expiration_date := some 739038 }

/-- A lot of 20 units with no expiration date. -/
def lotNoExp : Stock :=
  { id := 3, product_id := 1, current_quantity := 20 }

/-- Stock state with the three lots stored out of expiration order and an
empty movement ledger. -/
def exampleInv : InvState :=
  { stocks := [lotNoExp, lotJune, lotMarch], movements := [] }

/-- The March lot after being fully drained. -/
def lotMarchDrained : Stock := { lotMarch with current_quantity := 0 }

/-- The June lot after three more units were consumed from it. -/
def lotJuneAfter : Stock := { lotJune with current_quantity := 7 }

/-- The single `sale` movement a consume of 8 units records. -/
def saleMovement8 : StockMovement :=
  { id := none, product_id := 1, movement_type := .sale, quantity := -8 }

/-- The stock state after consuming 8 units from `exampleInv`. -/
def exampleInvAfter : InvState :=
  { stocks := [lotNoExp, lotJuneAfter, lotMarchDrained], movements := [saleMovement8] }

/-- The lots `remove_stock` reports as touched, in touch order. -/
def exampleAffected : List Stock := [lotMarchDrained, lotJuneAfter]

/-- The March lot after a consume of 3 units. -/
def lotMarchAfter3 : Stock := { lotMarch with current_quantity := 2 }

/-- The movement recorded when 3 units leave as a `return`: the sign
normalization stores +3, not -3. -/
def returnMovement3 : StockMovement :=
  { id := none, product_id := 1, movement_type := .«return», quantity := 3 }

/-- A valid lot with 5 on hand of which 3 are reserved. -/
def reservedLot : Stock :=
  { id := 1, product_id := 1, current_quantity := 3 + 2, reserved_quantity := 3 }

/-- The same lot after `adjust_stock` writes a new total of 2 into it:
`reserved_quantity` now exceeds `current_quantity`. -/
def adjustedLot : Stock := { reservedLot with current_quantity := 2 }

/-- The adjustment movement recorded by that `adjust_stock` call. -/
def adjustMovement : StockMovement :=
  { id := none, product_id := 1, movement_type := .adjustment, quantity := -3,
    notes := some "Stock adjustment: recount" }

/-- A lot with 2 of 5 units reserved. -/
def releaseLot : Stock :=
  { id := 1, product_id := 1, current_quantity := 5, reserved_quantity := 2 }

/-- Stock state holding only `releaseLot`. -/
def releaseState : InvState := { stocks := [releaseLot], movements := [] }

/-- `releaseLot` with its whole reservation released. -/
def releasedLot : Stock := { releaseLot with reserved_quantity := 0 }

/-- One active pet (id 1). -/
def examplePets : List Pet := [⟨1, true⟩]

/-- One veterinarian user (id 1). -/
def exampleUsers : List User := [⟨1, .veterinarian⟩]

/-- Practitioner 1's confirmed appointment 10:00–10:30 (minutes 600–630
of the day). -/
def apptTenToTenThirty : Appointment :=
  { id := 1, pet_id := 1, veterinarian_id := some 1, appointment_date := 600,
    duration_minutes := 30, appointment_type := .consultation, status := .confirmed }

/-- A booking request for the same practitioner at 10:15, which overlaps
the existing 10:00–10:30 appointment. -/
def conflictingRequest : AppointmentData :=
  { pet_id := 1, veterinarian_id := some 1, appointment_date := 615,
    appointment_type := .consultation }

/-- The appointment `schedule_appointment` persists for that request. -/
def conflictingResult : Appointment :=
  { id := 2, pet_id := 1, veterinarian_id := some 1, appointment_date := 615,
    duration_minutes := 30, appointment_type := .consultation, status := .scheduled }

/-- A completed appointment (terminal status). -/
def completedAppt : Appointment := { apptTenToTenThirty with status := .completed }

/-! ## Helper lemmas: slot generation -/

/-- Closed form of the slot `while` loop: the candidates are an arithmetic
progression of step 30 starting at `current`, cut off once a window would
end past `endT`, and the loop keeps exactly the free ones. -/
theorem slotsFrom_eq_range' (existing : List Appointment) (dur endT current : Nat) :
    slotsFrom existing dur endT current =
      ((List.range' current (candCount dur endT current) 30).map
        (fun s => (s, s + dur))).filter (fun p => slotFree existing p.1 p.2) := by
  rw [slotsFrom]
  by_cases h : current + dur ≤ endT
  · rw [dif_pos h]
    have ih := slotsFrom_eq_range' existing dur endT (current + 30)
    by_cases h30 : current + 30 + dur ≤ endT
    · have hm : 30 ≤ endT - (current + dur) := by omega
      have hcount : candCount dur endT current = candCount dur endT (current + 30) + 1 := by
        have h1 : endT - (current + 30 + dur) = endT - (current + dur) - 30 := by omega
        have h2 : endT - (current + dur) - 30 + 30 = endT - (current + dur) := by omega
        have h3 : (endT - (current + dur) - 30 + 30) / 30
            = (endT - (current + dur) - 30) / 30 + 1 :=
          Nat.add_div_right _ (by norm_num)
        simp only [candCount, if_pos h, if_pos h30]
        omega
      rw [hcount, List.range'_succ, List.map_cons, List.filter_cons, ih]
      by_cases hf : slotFree existing current (current + dur)
      · simp [hf]
      · simp [hf]
    · have hcount : candCount dur endT current = 1 := by
        have : endT - (current + dur) < 30 := by omega
        simp only [candCount, if_pos h]
        omega
      have hzero : candCount dur endT (current + 30) = 0 := by
        simp only [candCount, if_neg h30]
      rw [hcount, ih, hzero]
      by_cases hf : slotFree existing current (current + dur)
      · simp [hf, List.range']
      · simp [hf, List.range']
  · rw [dif_neg h]
    simp [candCount, h]
termination_by endT + 1 - current
decreasing_by omega

/-- Membership in the slot loop's output: exactly the 30-minute-step
candidates whose window fits before `endT` and is free. -/
theorem mem_slotsFrom {existing : List Appointment} {dur endT current s e : Nat} :
    (s, e) ∈ slotsFrom existing dur endT current ↔
      (∃ k, s = current + 30 * k) ∧ e = s + dur ∧ e ≤ endT ∧
        slotFree existing s e = true := by
  rw [slotsFrom_eq_range', List.mem_filter, List.mem_map]
  constructor
  · rintro ⟨⟨x, hx, hfx⟩, hfree⟩
    obtain ⟨i, hi, rfl⟩ := List.mem_range'.mp hx
    obtain ⟨rfl, rfl⟩ := Prod.mk.injEq .. ▸ hfx
    have hpos : 0 < candCount dur endT current := Nat.pos_of_ne_zero (by omega)
    have hfit : current + dur ≤ endT := by
      by_contra hc
      simp [candCount, hc] at hpos
    have hcc : candCount dur endT current = (endT - (current + dur)) / 30 + 1 := by
      simp [candCount, hfit]
    have hdiv : (endT - (current + dur)) / 30 * 30 ≤ endT - (current + dur) :=
      Nat.div_mul_le_self _ _
    have hi' : i ≤ (endT - (current + dur)) / 30 := by omega
    have hmul : 30 * i ≤ 30 * ((endT - (current + dur)) / 30) :=
      Nat.mul_le_mul_left _ hi'
    exact ⟨⟨i, rfl⟩, rfl, by omega, hfree⟩
  · rintro ⟨⟨k, rfl⟩, rfl, hle, hfree⟩
    refine ⟨⟨current + 30 * k, ?_, rfl⟩, hfree⟩
    have hfit : current + dur ≤ endT := by omega
    have hk : k ≤ (endT - (current + dur)) / 30 :=
      (Nat.le_div_iff_mul_le (by norm_num)).mpr (by omega)
    refine List.mem_range'.mpr ⟨k, ?_, rfl⟩
    simp only [candCount, if_pos hfit]
    omega

/-- The slot loop emits windows in strictly increasing chronological
order. -/
theorem slotsFrom_chronological (existing : List Appointment) (dur endT current : Nat) :
    ((slotsFrom existing dur endT current).map Prod.fst).Pairwise (· < ·) := by
  rw [slotsFrom_eq_range']
  rw [List.pairwise_map]
  refine List.Pairwise.sublist (List.filter_sublist _) ?_
  rw [List.pairwise_map]
  exact List.pairwise_lt_range' _ _ 30 (by norm_num)

/-- The slot freeness test over the practitioner's blocking appointments,
in propositional form. -/
theorem slotFree_iff (appts : List Appointment) (vet : Nat) (s e : Nat) :
    slotFree (appts.filter fun a =>
        a.veterinarian_id == some vet && blocking a.status) s e = true ↔
      ∀ a ∈ appts, a.veterinarian_id = some vet → blocking a.status = true →
        ¬(s < a.end_time ∧ a.appointment_date < e) := by
  rw [slotFree, Bool.not_eq_true', List.any_eq_false]
  constructor
  · intro h a ha hvet hbl hover
    have hmem : a ∈ appts.filter fun a =>
        a.veterinarian_id == some vet && blocking a.status :=
      List.mem_filter.mpr ⟨ha, by simp [hvet, hbl]⟩
    have hfa := h a hmem
    simp only [Bool.and_eq_true, decide_eq_true_eq, not_and] at hfa
    exact absurd hover.2 (hfa hover.1)
  · intro h a ha
    obtain ⟨ha', hcond⟩ := List.mem_filter.mp ha
    simp only [Bool.and_eq_true, beq_iff_eq] at hcond
    have hfa := h a ha' hcond.1 hcond.2
    simp only [Bool.and_eq_true, decide_eq_true_eq, not_and]
    intro h1 h2
    exact hfa ⟨h1, h2⟩

/-! ## Helper lemmas: the overlap test -/

/-- For a nonempty candidate interval and a positive-duration
appointment, the repository's three-case `OR` filter is exactly the
half-open overlap test `start < apptEnd ∧ apptStart < end`. -/
theorem overlapsQuery_iff {a : Appointment} {s e : Nat}
    (hd : 0 < a.duration_minutes) (hse : s < e) :
    overlapsQuery a s e = true ↔ s < a.end_time ∧ a.appointment_date < e := by
  simp only [overlapsQuery, Appointment.end_time, Bool.or_eq_true, Bool.and_eq_true,
    decide_eq_true_eq]
  omega

/-- `check_availability` reports a conflict exactly when some appointment
of the practitioner with a blocking status half-open-overlaps the
candidate interval. -/
theorem check_availability_false_iff {appts : List Appointment} {s e : Nat}
    {vet : Nat} (hse : s < e) (hd : ∀ a ∈ appts, 0 < a.duration_minutes) :
    check_availability appts s e vet = false ↔
      ∃ a ∈ appts, a.veterinarian_id = some vet ∧ blocking a.status = true ∧
        s < a.end_time ∧ a.appointment_date < e := by
  rw [check_availability, Bool.not_eq_false', List.any_eq_true]
  constructor
  · rintro ⟨a, ha, hcond⟩
    simp only [Bool.and_eq_true, beq_iff_eq] at hcond
    exact ⟨a, ha, hcond.1.1, hcond.1.2,
      (overlapsQuery_iff (hd a ha) hse).mp hcond.2⟩
  · rintro ⟨a, ha, hvet, hblock, hover⟩
    refine ⟨a, ha, ?_⟩
    simp only [Bool.and_eq_true, beq_iff_eq]
    exact ⟨⟨hvet, hblock⟩, (overlapsQuery_iff (hd a ha) hse).mpr hover⟩

/-! ## Helper lemmas: stock state updates -/

theorem availableStockByProduct_eq_sumBy (st : InvState) (pid : Int) :
    availableStockByProduct st pid = sumBy Stock.available_quantity pid st.stocks := rfl

theorem totalStockByProduct_eq_sumBy (st : InvState) (pid : Int) :
    totalStockByProduct st pid = sumBy Stock.current_quantity pid st.stocks := rfl

/-- Updating a row never changes the list of primary keys. -/
theorem updateStock_map_id (stocks : List Stock) (s' : Stock) :
    (updateStock stocks s').map Stock.id = stocks.map Stock.id := by
  simp only [updateStock, List.map_map]
  refine List.map_congr_left fun t _ => ?_
  by_cases h : t.id = s'.id
  · simp [h]
  · simp [h]

/-- Updating a row whose key is absent is a no-op. -/
theorem updateStock_eq_of_not_mem {stocks : List Stock} {s' : Stock}
    (h : s'.id ∉ stocks.map Stock.id) : updateStock stocks s' = stocks := by
  induction stocks with
  | nil => rfl
  | cons t rest ih =>
    simp only [List.map_cons, List.mem_cons] at h
    push_neg at h
    simp only [updateStock, List.map_cons]
    rw [if_neg (fun hc => h.1 hc.symm)]
    exact congrArg _ (ih h.2)

/-- A row with a different key survives an update unchanged. -/
theorem mem_updateStock_of_ne {stocks : List Stock} {t s' : Stock}
    (hmem : t ∈ stocks) (hne : t.id ≠ s'.id) : t ∈ updateStock stocks s' := by
  have : t = if t.id = s'.id then s' else t := by rw [if_neg hne]
  rw [updateStock]
  exact this ▸ List.mem_map_of_mem _ hmem

theorem updateStock_cons (t : Stock) (rest : List Stock) (s' : Stock) :
    updateStock (t :: rest) s' =
      (if t.id = s'.id then s' else t) :: updateStock rest s' := rfl

theorem sumBy_cons (f : Stock → Int) (pid : Int) (t : Stock) (rest : List Stock) :
    sumBy f pid (t :: rest) =
      (if t.product_id = pid then f t else 0) + sumBy f pid rest := by
  simp only [sumBy, List.filter_cons]
  by_cases hp : t.product_id = pid
  · simp [hp]
  · simp [hp]

/-- Effect of one row update on a per-product sum, when keys are unique:
only the replaced row's contribution changes. -/
theorem sumBy_updateStock (f : Stock → Int) (pid : Int) (stocks : List Stock)
    (s s' : Stock) (hmem : s ∈ stocks) (hnd : (stocks.map Stock.id).Nodup)
    (hid : s'.id = s.id) (hpid : s'.product_id = s.product_id) :
    sumBy f pid (updateStock stocks s') =
      sumBy f pid stocks + (if s.product_id = pid then f s' - f s else 0) := by
  induction stocks with
  | nil => cases hmem
  | cons t rest ih =>
    simp only [List.map_cons, List.nodup_cons] at hnd
    rcases List.mem_cons.mp hmem with rfl | hs
    · have hrest : updateStock rest s' = rest :=
        updateStock_eq_of_not_mem (by rw [hid]; exact hnd.1)
      rw [updateStock_cons, if_pos hid.symm, hrest, sumBy_cons, sumBy_cons, hpid]
      by_cases hp : s.product_id = pid
      · simp only [hp, if_pos]
        ring
      · simp [hp]
    · have hts' : t.id ≠ s'.id := fun hc =>
        hnd.1 (by rw [hc, hid]; exact List.mem_map_of_mem Stock.id hs)
      rw [updateStock_cons, if_neg hts', sumBy_cons, sumBy_cons, ih hs hnd.2]
      ring

/-- Sums of positive entries only grow when the non-positive ones are
dropped. -/
theorem sum_filter_pos_ge (f : Stock → Int) (l : List Stock) :
    ((l.map f).sum) ≤ (((l.filter fun s => 0 < f s).map f).sum) := by
  induction l with
  | nil => simp
  | cons t rest ih =>
    simp only [List.map_cons, List.sum_cons, List.filter_cons]
    by_cases hp : 0 < f t
    · simp only [hp, decide_True, if_true, decide_eq_true_eq, if_pos,
        List.map_cons, List.sum_cons]
      omega
    · have hd : decide (0 < f t) = false := by simp [hp]
      rw [hd, if_neg (by simp)]
      omega

/-- The consume loop succeeds and removes exactly `remaining` units from
the product's current total, provided the walked lots are distinct rows
of the state, all of this product, with positive availability covering
the request. Reservations and the set of row keys are untouched. -/
theorem consumeLoop_ok (pid : Int) :
    ∀ (sorted stocks : List Stock) (remaining : Int) (acc : List Stock),
      (stocks.map Stock.id).Nodup →
      (sorted.map Stock.id).Nodup →
      (∀ s ∈ sorted, s ∈ stocks ∧ s.product_id = pid ∧ 0 < s.available_quantity) →
      0 ≤ remaining →
      remaining ≤ (sorted.map Stock.available_quantity).sum →
      ∃ stocks' affected,
        consumeLoop stocks sorted remaining acc = .ok (stocks', affected) ∧
          sumBy Stock.current_quantity pid stocks' =
            sumBy Stock.current_quantity pid stocks - remaining ∧
          sumBy Stock.reserved_quantity pid stocks' =
            sumBy Stock.reserved_quantity pid stocks ∧
          stocks'.map Stock.id = stocks.map Stock.id := by
  intro sorted
  induction sorted with
  | nil =>
    intro stocks remaining acc _ _ _ h0 hsum
    simp only [List.map_nil, List.sum_nil] at hsum
    have : remaining = 0 := le_antisymm hsum h0
    exact ⟨stocks, acc.reverse, by simp [consumeLoop], by omega, by omega, rfl⟩
  | cons s rest ih =>
    intro stocks remaining acc hndSt hndSorted hmem h0 hsum
    by_cases hr : remaining ≤ 0
    · have : remaining = 0 := le_antisymm hr h0
      exact ⟨stocks, acc.reverse, by simp [consumeLoop, hr], by omega, by omega, rfl⟩
    · obtain ⟨hs_mem, hs_pid, hs_avail⟩ := hmem s (List.mem_cons_self _ _)
      simp only [List.map_cons, List.nodup_cons] at hndSorted
      set qty := min remaining s.available_quantity with hqty
      have hqty_pos : 0 < qty := lt_min (by omega) hs_avail
      have hqty_le : qty ≤ s.available_quantity := min_le_right _ _
      have hremove : s.remove_stock qty =
          .ok { s with current_quantity := s.current_quantity - qty } := by
        rw [Stock.remove_stock, if_neg (by omega), if_neg (by omega)]
      set s' : Stock := { s with current_quantity := s.current_quantity - qty }
        with hs'
      have hstep : consumeLoop stocks (s :: rest) remaining acc =
          consumeLoop (updateStock stocks s') rest (remaining - qty) (s' :: acc) := by
        simp only [consumeLoop, if_neg hr, ← hqty, hremove]
      have hsum_cons : remaining ≤ s.available_quantity +
          (rest.map Stock.available_quantity).sum := by
        simpa using hsum
      have hrest_nonneg : 0 ≤ (rest.map Stock.available_quantity).sum := by
        refine List.sum_nonneg ?_
        intro x hx
        obtain ⟨r, hr', rfl⟩ := List.mem_map.mp hx
        exact le_of_lt (hmem r (List.mem_cons_of_mem _ hr')).2.2
      obtain ⟨stocks', affected, hloop, hcur, hres, hids⟩ :=
        ih (updateStock stocks s') (remaining - qty) (s' :: acc)
          (by rw [updateStock_map_id]; exact hndSt)
          hndSorted.2
          (by
            intro r hrMem
            obtain ⟨hr1, hr2, hr3⟩ := hmem r (List.mem_cons_of_mem _ hrMem)
            refine ⟨mem_updateStock_of_ne hr1 ?_, hr2, hr3⟩
            intro hc
            exact hndSorted.1 (by rw [← hc]; exact List.mem_map_of_mem Stock.id hrMem))
          (by omega)
          (by omega)
      refine ⟨stocks', affected, by rw [hstep]; exact hloop, ?_, ?_, ?_⟩
      · rw [hcur, sumBy_updateStock Stock.current_quantity pid stocks s s' hs_mem hndSt rfl rfl,
          if_pos hs_pid]
        simp only [hs']
        omega
      · rw [hres, sumBy_updateStock Stock.reserved_quantity pid stocks s s' hs_mem hndSt rfl rfl,
          if_pos hs_pid]
        simp only [hs']
        omega
      · rw [hids, updateStock_map_id]

/-- The reserve loop succeeds and adds exactly `remaining` units to the
product's reserved total, under the same conditions as the consume
loop. Current quantities and row keys are untouched. -/
theorem reserveLoop_ok (pid : Int) :
    ∀ (sorted stocks : List Stock) (remaining : Int) (acc : List Stock),
      (stocks.map Stock.id).Nodup →
      (sorted.map Stock.id).Nodup →
      (∀ s ∈ sorted, s ∈ stocks ∧ s.product_id = pid ∧ 0 < s.available_quantity) →
      0 ≤ remaining →
      remaining ≤ (sorted.map Stock.available_quantity).sum →
      ∃ stocks' affected,
        reserveLoop stocks sorted remaining acc = .ok (stocks', affected) ∧
          sumBy Stock.reserved_quantity pid stocks' =
            sumBy Stock.reserved_quantity pid stocks + remaining ∧
          sumBy Stock.current_quantity pid stocks' =
            sumBy Stock.current_quantity pid stocks ∧
          stocks'.map Stock.id = stocks.map Stock.id := by
  intro sorted
  induction sorted with
  | nil =>
    intro stocks remaining acc _ _ _ h0 hsum
    simp only [List.map_nil, List.sum_nil] at hsum
    have : remaining = 0 := le_antisymm hsum h0
    exact ⟨stocks, acc.reverse, by simp [reserveLoop], by omega, by omega, rfl⟩
  | cons s rest ih =>
    intro stocks remaining acc hndSt hndSorted hmem h0 hsum
    by_cases hr : remaining ≤ 0
    · have : remaining = 0 := le_antisymm hr h0
      exact ⟨stocks, acc.reverse, by simp [reserveLoop, hr], by omega, by omega, rfl⟩
    · obtain ⟨hs_mem, hs_pid, hs_avail⟩ := hmem s (List.mem_cons_self _ _)
      simp only [List.map_cons, List.nodup_cons] at hndSorted
      set qty := min remaining s.available_quantity with hqty
      have hqty_pos : 0 < qty := lt_min (by omega) hs_avail
      have hqty_le : qty ≤ s.available_quantity := min_le_right _ _
      have hreserve : s.reserve_stock qty =
          .ok { s with reserved_quantity := s.reserved_quantity + qty } := by
        rw [Stock.reserve_stock, if_neg (by omega), if_neg (by omega)]
      set s' : Stock := { s with reserved_quantity := s.reserved_quantity + qty }
        with hs'
      have hstep : reserveLoop stocks (s :: rest) remaining acc =
          reserveLoop (updateStock stocks s') rest (remaining - qty) (s' :: acc) := by
        simp only [reserveLoop, if_neg hr, ← hqty, hreserve]
      have hsum_cons : remaining ≤ s.available_quantity +
          (rest.map Stock.available_quantity).sum := by
        simpa using hsum
      have hrest_nonneg : 0 ≤ (rest.map Stock.available_quantity).sum := by
        refine List.sum_nonneg ?_
        intro x hx
        obtain ⟨r, hr', rfl⟩ := List.mem_map.mp hx
        exact le_of_lt (hmem r (List.mem_cons_of_mem _ hr')).2.2
      obtain ⟨stocks', affected, hloop, hres, hcur, hids⟩ :=
        ih (updateStock stocks s') (remaining - qty) (s' :: acc)
          (by rw [updateStock_map_id]; exact hndSt)
          hndSorted.2
          (by
            intro r hrMem
            obtain ⟨hr1, hr2, hr3⟩ := hmem r (List.mem_cons_of_mem _ hrMem)
            refine ⟨mem_updateStock_of_ne hr1 ?_, hr2, hr3⟩
            intro hc
            exact hndSorted.1 (by rw [← hc]; exact List.mem_map_of_mem Stock.id hrMem))
          (by omega)
          (by omega)
      refine ⟨stocks', affected, by rw [hstep]; exact hloop, ?_, ?_, ?_⟩
      · rw [hres, sumBy_updateStock Stock.reserved_quantity pid stocks s s' hs_mem hndSt
          rfl rfl, if_pos hs_pid]
        simp only [hs']
        omega
      · rw [hcur, sumBy_updateStock Stock.current_quantity pid stocks s s' hs_mem hndSt
          rfl rfl, if_pos hs_pid]
        simp only [hs']
        omega
      · rw [hids, updateStock_map_id]

/-- The release loop never fails: it releases `min(remaining, total reserved
of the walked lots)`, never more. -/
theorem releaseLoop_ok (pid : Int) :
    ∀ (lots stocks : List Stock) (remaining : Int) (acc : List Stock),
      (stocks.map Stock.id).Nodup →
      (lots.map Stock.id).Nodup →
      (∀ s ∈ lots, s ∈ stocks ∧ s.product_id = pid ∧ 0 < s.reserved_quantity) →
      0 ≤ remaining →
      ∃ stocks' affected,
        releaseLoop stocks lots remaining acc = .ok (stocks', affected) ∧
          sumBy Stock.reserved_quantity pid stocks' =
            sumBy Stock.reserved_quantity pid stocks -
              min remaining ((lots.map Stock.reserved_quantity).sum) ∧
          sumBy Stock.current_quantity pid stocks' =
            sumBy Stock.current_quantity pid stocks ∧
          stocks'.map Stock.id = stocks.map Stock.id := by
  intro lots
  induction lots with
  | nil =>
    intro stocks remaining acc _ _ _ h0
    exact ⟨stocks, acc.reverse, by simp [releaseLoop],
      by simp [min_eq_right h0], by omega, rfl⟩
  | cons s rest ih =>
    intro stocks remaining acc hndSt hndLots hmem h0
    have hrest_nonneg : 0 ≤ (rest.map Stock.reserved_quantity).sum := by
      refine List.sum_nonneg ?_
      intro x hx
      obtain ⟨r, hr', rfl⟩ := List.mem_map.mp hx
      exact le_of_lt (hmem r (List.mem_cons_of_mem _ hr')).2.2
    obtain ⟨hs_mem, hs_pid, hs_res⟩ := hmem s (List.mem_cons_self _ _)
    by_cases hr : remaining ≤ 0
    · have : remaining = 0 := le_antisymm hr h0
      subst this
      refine ⟨stocks, acc.reverse, by simp [releaseLoop], ?_, by omega, rfl⟩
      have : min (0 : Int) ((s.reserved_quantity :: rest.map Stock.reserved_quantity).sum)
          = 0 := min_eq_left (by simp only [List.sum_cons]; omega)
      simp only [List.map_cons, this]
      omega
    · simp only [List.map_cons, List.nodup_cons] at hndLots
      set qty := min remaining s.reserved_quantity with hqty
      have hqty_pos : 0 < qty := lt_min (by omega) hs_res
      have hqty_le : qty ≤ s.reserved_quantity := min_le_right _ _
      have hrelease : s.release_reservation qty =
          .ok { s with reserved_quantity := s.reserved_quantity - qty } := by
        rw [Stock.release_reservation, if_neg (by omega), if_neg (by omega)]
      set s' : Stock := { s with reserved_quantity := s.reserved_quantity - qty }
        with hs'
      have hstep : releaseLoop stocks (s :: rest) remaining acc =
          releaseLoop (updateStock stocks s') rest (remaining - qty) (s' :: acc) := by
        simp only [releaseLoop, if_neg hr, ← hqty, hrelease]
      obtain ⟨stocks', affected, hloop, hres, hcur, hids⟩ :=
        ih (updateStock stocks s') (remaining - qty) (s' :: acc)
          (by rw [updateStock_map_id]; exact hndSt)
          hndLots.2
          (by
            intro r hrMem
            obtain ⟨hr1, hr2, hr3⟩ := hmem r (List.mem_cons_of_mem _ hrMem)
            refine ⟨mem_updateStock_of_ne hr1 ?_, hr2, hr3⟩
            intro hc
            exact hndLots.1 (by rw [← hc]; exact List.mem_map_of_mem Stock.id hrMem))
          (by omega)
      refine ⟨stocks', affected, by rw [hstep]; exact hloop, ?_, ?_, ?_⟩
      · rw [hres, sumBy_updateStock Stock.reserved_quantity pid stocks s s' hs_mem hndSt
          rfl rfl, if_pos hs_pid]
        simp only [hs', List.map_cons, List.sum_cons]
        omega
      · rw [hcur, sumBy_updateStock Stock.current_quantity pid stocks s s' hs_mem hndSt
          rfl rfl, if_pos hs_pid]
        simp only [hs']
        omega
      · rw [hids, updateStock_map_id]

/-- Non-negative entries: dropping the zero ones does not change a sum. -/
theorem sum_filter_pos_eq (f : Stock → Int) (l : List Stock)
    (h : ∀ s ∈ l, 0 ≤ f s) :
    (((l.filter fun s => 0 < f s).map f).sum) = ((l.map f).sum) := by
  induction l with
  | nil => simp
  | cons t rest ih =>
    have ht := h t (List.mem_cons_self _ _)
    have ih' := ih fun s hs => h s (List.mem_cons_of_mem _ hs)
    simp only [List.map_cons, List.sum_cons, List.filter_cons]
    by_cases hp : 0 < f t
    · simp only [hp, decide_True, if_true, List.map_cons, List.sum_cons, ih']
    · have hd : decide (0 < f t) = false := by simp [hp]
      rw [hd, if_neg (by simp)]
      have : f t = 0 := by omega
      omega

/-- `StockMovement.make` succeeds on a nonzero quantity and a positive
product id, and the stored quantity is never zero. -/
theorem StockMovement.make_ok (pid q : Int) (mt : StockMovementType)
    (rid : Option Int) (rt : Option String) (notes : Option String)
    (cb : Option Int) (hpid : 0 < pid) (hq : q ≠ 0) :
    ∃ m, StockMovement.make pid mt q rid rt notes cb = .ok m ∧ m.quantity ≠ 0 := by
  rw [StockMovement.make, if_neg (by omega), if_neg hq]
  refine ⟨_, rfl, ?_⟩
  split
  · simp only [neg_ne_zero, Ne, Int.natCast_eq_zero, Int.natAbs_eq_zero]
    exact hq
  · split
    · simp only [Ne, Int.natCast_eq_zero, Int.natAbs_eq_zero]
      exact hq
    · exact hq

/-- For a movement type that is neither `purchase` nor `return`, a
negative quantity is stored unchanged by `StockMovement.make`. -/
theorem StockMovement.make_of_neg (pid q : Int) (mt : StockMovementType)
    (rid : Option Int) (rt : Option String) (notes : Option String)
    (cb : Option Int) (hpid : 0 < pid) (hq : q < 0)
    (hmt : mt ≠ .purchase ∧ mt ≠ .«return») :
    StockMovement.make pid mt q rid rt notes cb =
      .ok { id := none, product_id := pid, movement_type := mt, quantity := q,
            reference_id := rid, reference_type := rt, notes := notes,
            created_by := cb } := by
  rw [StockMovement.make, if_neg (by omega), if_neg (by omega)]
  have h1 : ¬((mt = .sale ∨ mt = .expired ∨ mt = .damaged) ∧ q > 0) := by
    rintro ⟨-, hq'⟩; omega
  have h2 : ¬((mt = .purchase ∨ mt = .«return») ∧ q < 0) := by
    rintro ⟨hc, -⟩
    rcases hc with hc | hc
    · exact hmt.1 hc
    · exact hmt.2 hc
  rw [if_neg h1, if_neg h2]

/-- Facts about the FIFO-sorted candidate list consume/reserve walk over:
its rows are distinct rows of the state, belong to the product, have
positive availability, and their availability covers the product's total
available quantity. -/
theorem fifo_candidates_facts (st : InvState) (pid : Int)
    (hnd : (st.stocks.map Stock.id).Nodup) :
    ((fifoSort ((findStockByProduct st pid).filter
        fun s => 0 < s.available_quantity)).map Stock.id).Nodup ∧
    (∀ s ∈ fifoSort ((findStockByProduct st pid).filter
        fun s => 0 < s.available_quantity),
      s ∈ st.stocks ∧ s.product_id = pid ∧ 0 < s.available_quantity) ∧
    availableStockByProduct st pid ≤
      ((fifoSort ((findStockByProduct st pid).filter
        fun s => 0 < s.available_quantity)).map Stock.available_quantity).sum := by
  set candidates := (findStockByProduct st pid).filter
    fun s => 0 < s.available_quantity with hcand
  have hperm : List.Perm (fifoSort candidates) candidates :=
    List.perm_insertionSort _ _
  have hsub : List.Sublist candidates st.stocks :=
    (List.filter_sublist _).trans (List.filter_sublist _)
  refine ⟨?_, ?_, ?_⟩
  · have h1 : (candidates.map Stock.id).Nodup :=
      (hsub.map Stock.id).nodup hnd
    exact ((hperm.map Stock.id).nodup_iff).mpr h1
  · intro s hs
    have hs' : s ∈ candidates := hperm.mem_iff.mp hs
    have h1 := List.mem_filter.mp hs'
    have h2 := List.mem_filter.mp h1.1
    refine ⟨h2.1, ?_, ?_⟩
    · exact beq_iff_eq.mp h2.2
    · simpa using h1.2
  · have heq : ((fifoSort candidates).map Stock.available_quantity).sum =
        (candidates.map Stock.available_quantity).sum :=
      (hperm.map Stock.available_quantity).sum_eq
    rw [heq, availableStockByProduct]
    exact sum_filter_pos_ge Stock.available_quantity _

/-- `remove_stock` on a covered positive request: succeeds, appends
exactly one movement (built from `-quantity`), removes exactly the
requested amount from the product's current total, and leaves
reservations and row keys unchanged. -/
theorem remove_stock_ok_general (products : List Product) (st : InvState)
    (pid q : Int) (rid : Option Int) (rt : Option String) (notes : Option String)
    (mt : StockMovementType)
    (hfound : (products.find? fun p => p.id == pid).isSome)
    (hpid : 0 < pid) (hq : 0 < q) (hcover : q ≤ availableStockByProduct st pid)
    (hnd : (st.stocks.map Stock.id).Nodup) :
    ∃ st' affected m,
      remove_stock products st pid q rid rt notes mt = .ok (st', affected) ∧
        StockMovement.make pid mt (-q) rid rt notes none = .ok m ∧
        st'.movements = st.movements ++ [m] ∧
        totalStockByProduct st' pid = totalStockByProduct st pid - q ∧
        sumBy Stock.reserved_quantity pid st'.stocks =
          sumBy Stock.reserved_quantity pid st.stocks ∧
        st'.stocks.map Stock.id = st.stocks.map Stock.id := by
  obtain ⟨p, hp⟩ := Option.isSome_iff_exists.mp hfound
  obtain ⟨hndS, hmemS, hsumS⟩ := fifo_candidates_facts st pid hnd
  obtain ⟨stocks', affected, hloop, hcur, hres, hids⟩ :=
    consumeLoop_ok pid
      (fifoSort ((findStockByProduct st pid).filter fun s => 0 < s.available_quantity))
      st.stocks q [] hnd hndS hmemS (le_of_lt hq) (le_trans hcover hsumS)
  obtain ⟨m, hm, -⟩ :=
    StockMovement.make_ok pid (-q) mt rid rt notes none hpid (by omega)
  refine ⟨⟨stocks', st.movements ++ [m]⟩, affected, m, ?_, hm, rfl, ?_, hres, hids⟩
  · simp only [remove_stock, hp]
    rw [if_neg (not_lt.mpr hcover), hloop, hm]
  · rw [totalStockByProduct_eq_sumBy, totalStockByProduct_eq_sumBy]
    exact hcur

/-- `reserve_stock` on a covered positive request: succeeds, adds exactly
the requested amount to the product's reserved total, writes no movement,
and leaves current quantities and row keys unchanged. -/
theorem reserve_stock_ok_general (st : InvState) (pid q : Int)
    (hq : 0 < q) (hcover : q ≤ availableStockByProduct st pid)
    (hnd : (st.stocks.map Stock.id).Nodup) :
    ∃ st' affected,
      reserve_stock st pid q = .ok (st', affected) ∧
        sumBy Stock.reserved_quantity pid st'.stocks =
          sumBy Stock.reserved_quantity pid st.stocks + q ∧
        sumBy Stock.current_quantity pid st'.stocks =
          sumBy Stock.current_quantity pid st.stocks ∧
        st'.movements = st.movements ∧
        st'.stocks.map Stock.id = st.stocks.map Stock.id := by
  obtain ⟨hndS, hmemS, hsumS⟩ := fifo_candidates_facts st pid hnd
  obtain ⟨stocks', affected, hloop, hres, hcur, hids⟩ :=
    reserveLoop_ok pid
      (fifoSort ((findStockByProduct st pid).filter fun s => 0 < s.available_quantity))
      st.stocks q [] hnd hndS hmemS (le_of_lt hq) (le_trans hcover hsumS)
  refine ⟨⟨stocks', st.movements⟩, affected, ?_, hres, hcur, rfl, hids⟩
  simp only [reserve_stock]
  rw [if_neg (not_lt.mpr hcover), hloop]

/-- `release_reservation` never fails on a non-negative request over
valid rows: it releases `min(requested, total reserved)` of the product,
writes no movement, and leaves current quantities and row keys
unchanged. -/
theorem release_reservation_ok_general (st : InvState) (pid q : Int)
    (h0 : 0 ≤ q)
    (hval : ∀ s ∈ st.stocks, 0 ≤ s.reserved_quantity)
    (hnd : (st.stocks.map Stock.id).Nodup) :
    ∃ st' affected,
      release_reservation st pid q = .ok (st', affected) ∧
        sumBy Stock.reserved_quantity pid st'.stocks =
          sumBy Stock.reserved_quantity pid st.stocks -
            min q (sumBy Stock.reserved_quantity pid st.stocks) ∧
        sumBy Stock.current_quantity pid st'.stocks =
          sumBy Stock.current_quantity pid st.stocks ∧
        st'.movements = st.movements ∧
        st'.stocks.map Stock.id = st.stocks.map Stock.id := by
  set lots := (findStockByProduct st pid).filter
    fun s => 0 < s.reserved_quantity with hlots
  have hsub : List.Sublist lots st.stocks :=
    (List.filter_sublist _).trans (List.filter_sublist _)
  have hmemL : ∀ s ∈ lots, s ∈ st.stocks ∧ s.product_id = pid ∧
      0 < s.reserved_quantity := by
    intro s hs
    have h1 := List.mem_filter.mp hs
    have h2 := List.mem_filter.mp h1.1
    exact ⟨h2.1, beq_iff_eq.mp h2.2, by simpa using h1.2⟩
  have hsum : (lots.map Stock.reserved_quantity).sum =
      sumBy Stock.reserved_quantity pid st.stocks := by
    rw [hlots, sum_filter_pos_eq Stock.reserved_quantity (findStockByProduct st pid)
      (fun s hs => hval s (List.mem_filter.mp hs).1)]
    rfl
  obtain ⟨stocks', affected, hloop, hres, hcur, hids⟩ :=
    releaseLoop_ok pid lots st.stocks q [] hnd
      ((hsub.map Stock.id).nodup hnd) hmemL h0
  refine ⟨⟨stocks', st.movements⟩, affected, ?_, ?_, hcur, rfl, hids⟩
  · simp only [release_reservation]
    rw [hloop]
  · rw [hres, hsum]

/-- Successful `Stock.remove_stock`, inverted. -/
theorem Stock.remove_stock_ok_inv {s s' : Stock} {q : Int}
    (h : s.remove_stock q = .ok s') :
    0 < q ∧ q ≤ s.available_quantity ∧
      s' = { s with current_quantity := s.current_quantity - q } := by
  rw [Stock.remove_stock] at h
  by_cases h1 : q ≤ 0
  · rw [if_pos h1] at h; cases h
  · rw [if_neg h1] at h
    by_cases h2 : q > s.available_quantity
    · rw [if_pos h2] at h; cases h
    · rw [if_neg h2] at h
      exact ⟨by omega, by omega, (Except.ok.injEq .. ▸ h).symm⟩

/-- With nothing left to take, the consume loop stops at once. -/
theorem consumeLoop_of_nonpos (stocks : List Stock) (lots : List Stock)
    (remaining : Int) (acc : List Stock) (h : remaining ≤ 0) :
    consumeLoop stocks lots remaining acc = .ok (stocks, acc.reverse) := by
  cases lots with
  | nil => rfl
  | cons s rest => simp [consumeLoop, h]

/-- Structure of a successful consume loop: the lots it reports were
touched in the order walked (so their expiration keys form a sublist of
the walked list's keys), and every touched lot except possibly the last
was drained to zero availability. -/
theorem consumeLoop_affected :
    ∀ (lots stocks : List Stock) (remaining : Int) (acc : List Stock)
      (out : List Stock × List Stock),
      consumeLoop stocks lots remaining acc = .ok out →
      ∃ touched, out.2 = acc.reverse ++ touched ∧
        List.Sublist (touched.map expKey) (lots.map expKey) ∧
        ∀ p ∈ touched.dropLast, p.available_quantity = 0 := by
  intro lots
  induction lots with
  | nil =>
    intro stocks remaining acc out hok
    rw [consumeLoop] at hok
    obtain ⟨-, h2⟩ := Prod.mk.injEq .. ▸ (Except.ok.injEq .. ▸ hok)
    exact ⟨[], by rw [← h2]; simp, by simp, by simp⟩
  | cons s rest ih =>
    intro stocks remaining acc out hok
    by_cases hr : remaining ≤ 0
    · rw [consumeLoop_of_nonpos _ _ _ _ hr] at hok
      obtain ⟨-, h2⟩ := Prod.mk.injEq .. ▸ (Except.ok.injEq .. ▸ hok)
      exact ⟨[], by rw [← h2]; simp, by simp, by simp⟩
    · simp only [consumeLoop, if_neg hr] at hok
      cases hrem : s.remove_stock (min remaining s.available_quantity) with
      | error e =>
        simp only [hrem] at hok
        exact Except.noConfusion hok
      | ok s' =>
        simp only [hrem] at hok
        obtain ⟨touched, htc, hsl, hdrain⟩ := ih _ _ _ _ hok
        obtain ⟨hq_pos, hq_le, hshape⟩ := Stock.remove_stock_ok_inv hrem
        have hkey : expKey s' = expKey s := by rw [hshape]; rfl
        refine ⟨s' :: touched, ?_, ?_, ?_⟩
        · rw [htc]; simp
        · simp only [List.map_cons, hkey]
          exact List.Sublist.cons₂ _ hsl
        · intro p hp
          by_cases htn : touched = []
          · subst htn
            simp at hp
          · rw [List.dropLast_cons_of_ne_nil htn] at hp
            rcases List.mem_cons.mp hp with rfl | hp'
            · -- the loop touched another lot after this one, so it was drained
              by_cases hgt : min remaining s.available_quantity < remaining
              · have hmin : min remaining s.available_quantity
                    = s.current_quantity - s.reserved_quantity := by
                  rw [Stock.available_quantity] at *
                  omega
                rw [hshape]
                simp only [Stock.available_quantity]
                omega
              · -- otherwise the loop would have stopped right after it
                exfalso
                have hstop : remaining - min remaining s.available_quantity ≤ 0 := by
                  omega
                rw [consumeLoop_of_nonpos _ _ _ _ hstop] at hok
                obtain ⟨-, h2⟩ := Prod.mk.injEq .. ▸ (Except.ok.injEq .. ▸ hok)
                rw [htc] at h2
                have hcancel := List.append_cancel_left
                  (show List.reverse acc ++ (p :: touched)
                      = List.reverse acc ++ [p] by simpa using h2)
                exact htn (by simpa using hcancel)
            · exact hdrain p hp'

/-- The FIFO sort orders expiration keys ascending (no-expiration lots
carry the maximal key `dateMax`, hence sort last). -/
theorem fifoSort_keys_sorted (l : List Stock) :
    ((fifoSort l).map expKey).Pairwise (· ≤ ·) := by
  rw [List.pairwise_map]
  exact List.sorted_insertionSort _ l

/-- Successful `remove_stock`, inverted down to its consume loop. -/
theorem remove_stock_run_inv {products : List Product} {st : InvState}
    {pid q : Int} {rid : Option Int} {rt : Option String} {notes : Option String}
    {mt : StockMovementType} {st' : InvState} {affected : List Stock}
    (h : remove_stock products st pid q rid rt notes mt = .ok (st', affected)) :
    consumeLoop st.stocks
        (fifoSort ((findStockByProduct st pid).filter fun s => 0 < s.available_quantity))
        q [] = .ok (st'.stocks, affected) ∧
      ∃ m, StockMovement.make pid mt (-q) rid rt notes none = .ok m ∧
        st'.movements = st.movements ++ [m] := by
  cases hfind : products.find? (fun p => p.id == pid) with
  | none =>
    simp [remove_stock, hfind] at h
  | some p =>
    simp only [remove_stock, hfind] at h
    by_cases hav : availableStockByProduct st pid < q
    · rw [if_pos hav] at h
      exact Except.noConfusion h
    · rw [if_neg hav] at h
      cases hloop : consumeLoop st.stocks
          (fifoSort ((findStockByProduct st pid).filter fun s => 0 < s.available_quantity))
          q [] with
      | error e =>
        rw [hloop] at h
        exact Except.noConfusion h
      | ok res =>
        rw [hloop] at h
        cases hmake : StockMovement.make pid mt (-q) rid rt notes none with
        | error e =>
          simp only [hmake] at h
          exact Except.noConfusion h
        | ok m =>
          simp only [hmake] at h
          obtain ⟨h1, h2⟩ := Prod.mk.injEq .. ▸ (Except.ok.injEq .. ▸ h)
          refine ⟨?_, ⟨m, rfl, ?_⟩⟩
          · rw [← h1, ← h2]
          · rw [← h1]

/-- Whatever `StockMovement.make` accepts, the stored quantity is
nonzero. -/
theorem StockMovement.make_quantity_ne_zero {pid q : Int}
    {mt : StockMovementType} {rid : Option Int} {rt : Option String}
    {notes : Option String} {cb : Option Int} {m : StockMovement}
    (h : StockMovement.make pid mt q rid rt notes cb = .ok m) : m.quantity ≠ 0 := by
  rw [StockMovement.make] at h
  by_cases h1 : pid ≤ 0
  · rw [if_pos h1] at h
    exact Except.noConfusion h
  · rw [if_neg h1] at h
    by_cases h2 : q = 0
    · rw [if_pos h2] at h
      exact Except.noConfusion h
    · rw [if_neg h2] at h
      simp only at h
      have hm := (Except.ok.injEq .. ▸ h).symm
      rw [hm]
      split
      · simp only [neg_ne_zero, Ne, Int.natCast_eq_zero, Int.natAbs_eq_zero]
        exact h2
      · split
        · simp only [Ne, Int.natCast_eq_zero, Int.natAbs_eq_zero]
          exact h2
        · exact h2

/-- A zero quantity is always rejected by `StockMovement.make`. -/
theorem StockMovement.make_zero_error (pid : Int) (mt : StockMovementType)
    (rid : Option Int) (rt : Option String) (notes : Option String)
    (cb : Option Int) :
    ∃ e, StockMovement.make pid mt 0 rid rt notes cb = .error e := by
  rw [StockMovement.make]
  by_cases h1 : pid ≤ 0
  · exact ⟨.invalidProductId, by rw [if_pos h1]⟩
  · exact ⟨.zeroQuantity, by rw [if_neg h1, if_pos rfl]⟩

/-- Successful `add_stock`, inverted down to its movement: exactly one
row is appended to the ledger and it went through `StockMovement.make`. -/
theorem add_stock_ok_inv {products : List Product} {st : InvState}
    {pid qty : Int} {exp : Option Nat} {batch loc : Option String}
    {rid : Option Int} {rt notes : Option String} {newId : Nat}
    {st' : InvState} {stock : Stock}
    (h : add_stock products st pid qty exp batch loc rid rt notes newId
      = .ok (st', stock)) :
    ∃ m, StockMovement.make pid .purchase qty rid rt notes none = .ok m ∧
      st'.movements = st.movements ++ [m] := by
  cases hfind : products.find? (fun p => p.id == pid) with
  | none => simp [add_stock, hfind] at h
  | some p =>
    cases hact : p.is_active with
    | false => simp [add_stock, hfind, hact] at h
    | true =>
      simp only [add_stock, hfind, hact, Bool.not_true, Bool.false_eq_true,
        if_false] at h
      cases hmatch : (findStockByProduct st pid).find? (fun s =>
          s.batch_number == batch && s.location == loc &&
            s.expiration_date == exp) with
      | some m0 =>
        rw [hmatch] at h
        cases hadd : m0.add_stock qty with
        | error e =>
          simp only [hadd] at h
          exact Except.noConfusion h
        | ok s1 =>
          simp only [hadd] at h
          cases hmake : StockMovement.make pid .purchase qty rid rt notes none with
          | error e =>
          simp only [hmake] at h
          exact Except.noConfusion h
          | ok m =>
            simp only [hmake] at h
            obtain ⟨h1, -⟩ := Prod.mk.injEq .. ▸ (Except.ok.injEq .. ▸ h)
            exact ⟨m, rfl, by rw [← h1]⟩
      | none =>
        rw [hmatch] at h
        cases hval : Stock.validate
            { id := newId, product_id := pid, current_quantity := qty,
              expiration_date := exp, batch_number := batch, location := loc } with
        | error e =>
          simp only [hval] at h
          exact Except.noConfusion h
        | ok s1 =>
          simp only [hval] at h
          cases hmake : StockMovement.make pid .purchase qty rid rt notes none with
          | error e =>
          simp only [hmake] at h
          exact Except.noConfusion h
          | ok m =>
            simp only [hmake] at h
            obtain ⟨h1, -⟩ := Prod.mk.injEq .. ▸ (Except.ok.injEq .. ▸ h)
            exact ⟨m, rfl, by rw [← h1]⟩

/-- Successful `adjust_stock`, inverted down to its movement. -/
theorem adjust_stock_ok_inv {st : InvState} {pid newq : Int} {reason : String}
    {user : Option Int} {newId : Nat} {st' : InvState} {stock : Stock}
    (h : adjust_stock st pid newq reason user newId = .ok (st', stock)) :
    ∃ m, StockMovement.make pid .adjustment (newq - totalStockByProduct st pid)
        none none (some ("Stock adjustment: " ++ reason)) user = .ok m ∧
      st'.movements = st.movements ++ [m] := by
  rw [adjust_stock] at h
  by_cases hz : newq - totalStockByProduct st pid = 0
  · rw [if_pos hz] at h
    exact Except.noConfusion h
  · rw [if_neg hz] at h
    cases hmake : StockMovement.make pid .adjustment (newq - totalStockByProduct st pid)
        none none (some ("Stock adjustment: " ++ reason)) user with
    | error e =>
      rw [hmake] at h
      exact Except.noConfusion h
    | ok m =>
      rw [hmake] at h
      cases hlots : findStockByProduct st pid with
      | cons main rest =>
        rw [hlots] at h
        obtain ⟨h1, -⟩ := Prod.mk.injEq .. ▸ (Except.ok.injEq .. ▸ h)
        exact ⟨m, rfl, by rw [← h1]⟩
      | nil =>
        rw [hlots] at h
        cases hval : Stock.validate
            { id := newId, product_id := pid, current_quantity := newq } with
        | error e =>
          simp only [hval] at h
          exact Except.noConfusion h
        | ok s1 =>
          simp only [hval] at h
          obtain ⟨h1, -⟩ := Prod.mk.injEq .. ▸ (Except.ok.injEq .. ▸ h)
          exact ⟨m, rfl, by rw [← h1]⟩


/-! ## Claim theorems -/

/-- C1: the spec claims a conflicting `schedule_appointment` call fails
with a not-available error before persistence, with the availability
check invoked before committing. In the source, `schedule_appointment`
never invokes `check_availability`: on a request that half-open-overlaps
an existing confirmed appointment of the same practitioner (and that the
repository's own availability check reports as a conflict), the call
succeeds and the conflicting appointment is persisted. -/
theorem claim_C1_schedule_persists_conflicts :
    check_availability [apptTenToTenThirty] 615 645 1 = false ∧
    (615 < apptTenToTenThirty.end_time ∧ apptTenToTenThirty.appointment_date < 645) ∧
    schedule_appointment examplePets exampleUsers [apptTenToTenThirty] 0
        conflictingRequest 2 =
      .ok ([apptTenToTenThirty, conflictingResult], conflictingResult) := by
  decide

/-- C2: the spec claims every operation, adjustment included, preserves
the per-lot invariant. `adjust_stock` writes the new total into the first
lot by a plain field assignment, bypassing the `Stock` validation: on a
valid lot with 5 on hand and 3 reserved, adjusting the product total to 2
yields a persisted lot with `reserved_quantity > current_quantity`. -/
theorem claim_C2_adjust_violates_invariant :
    reservedLot.Valid ∧
    adjust_stock { stocks := [reservedLot], movements := [] } 1 2 "recount" none 99 =
      .ok ({ stocks := [adjustedLot], movements := [adjustMovement] }, adjustedLot) ∧
    adjustedLot.current_quantity < adjustedLot.reserved_quantity ∧
    ¬ adjustedLot.Valid := by
  decide

/-- C3: consuming draws lots greedily in ascending expiration order with
no-expiration lots last. Concretely: with lots [March: 5], [June: 10],
[no expiration: 20] stored out of order, consuming 8 drains the March lot
to 0, leaves the June lot at 7, and leaves the no-expiration lot
untouched, recording one movement of -8. Generally: the lots a
successful consume touches carry ascending expiration keys, and every
touched lot except possibly the last is drained to zero availability. -/
theorem claim_C3_fifo_consumption :
    (remove_stock exampleProducts exampleInv 1 8 none none none .sale =
        .ok (exampleInvAfter, exampleAffected) ∧
      lotMarchDrained.current_quantity = 0 ∧ lotJuneAfter.current_quantity = 7 ∧
      exampleInvAfter.stocks = [lotNoExp, lotJuneAfter, lotMarchDrained]) ∧
    (∀ (products : List Product) (st : InvState) (pid q : Int)
        (rid : Option Int) (rt notes : Option String) (mt : StockMovementType)
        (st' : InvState) (affected : List Stock),
      remove_stock products st pid q rid rt notes mt = .ok (st', affected) →
        (affected.map expKey).Pairwise (· ≤ ·) ∧
          ∀ p ∈ affected.dropLast, p.available_quantity = 0) := by
  refine ⟨by decide, ?_⟩
  intro products st pid q rid rt notes mt st' affected h
  obtain ⟨hloop, -⟩ := remove_stock_run_inv h
  obtain ⟨touched, htc, hsl, hdrain⟩ := consumeLoop_affected _ _ _ _ _ hloop
  simp only [List.reverse_nil, List.nil_append] at htc
  subst htc
  refine ⟨?_, hdrain⟩
  exact (fifoSort_keys_sorted _).sublist hsl

/-- Witness for C3's general part, at the concrete fixture call. -/
theorem claim_C3_fifo_consumption_witness :
    (exampleAffected.map expKey).Pairwise (· ≤ ·) ∧
      ∀ p ∈ exampleAffected.dropLast, p.available_quantity = 0 :=
  claim_C3_fifo_consumption.2 exampleProducts exampleInv 1 8 none none none .sale
    exampleInvAfter exampleAffected claim_C3_fifo_consumption.1.1


/-- C4: consume and reserve are all-or-nothing. If the request exceeds
the product's total available quantity, the operation fails with the
insufficient-stock error reporting available and requested, before any
mutation (the error is returned with no state change). If the
precondition holds (positive request, distinct row keys), the operation
completes, fully distributing the request: consume lowers the product's
current total by exactly the request and appends exactly one movement;
reserve raises the reserved total by exactly the request and appends no
movement. -/
theorem claim_C4_allocator_all_or_nothing :
    (∀ (products : List Product) (st : InvState) (pid q : Int)
        (rid : Option Int) (rt notes : Option String) (mt : StockMovementType)
        (p : Product),
      products.find? (fun p => p.id == pid) = some p →
      availableStockByProduct st pid < q →
      remove_stock products st pid q rid rt notes mt =
        .error (.insufficientStock (availableStockByProduct st pid) q)) ∧
    (∀ (st : InvState) (pid q : Int),
      availableStockByProduct st pid < q →
      reserve_stock st pid q =
        .error (.insufficientStockToReserve (availableStockByProduct st pid) q)) ∧
    (∀ (products : List Product) (st : InvState) (pid q : Int)
        (rid : Option Int) (rt notes : Option String) (mt : StockMovementType),
      (products.find? fun p => p.id == pid).isSome → 0 < pid → 0 < q →
      q ≤ availableStockByProduct st pid → (st.stocks.map Stock.id).Nodup →
      ∃ st' affected m,
        remove_stock products st pid q rid rt notes mt = .ok (st', affected) ∧
          st'.movements = st.movements ++ [m] ∧
          totalStockByProduct st' pid = totalStockByProduct st pid - q) ∧
    (∀ (st : InvState) (pid q : Int),
      0 < q → q ≤ availableStockByProduct st pid →
      (st.stocks.map Stock.id).Nodup →
      ∃ st' affected,
        reserve_stock st pid q = .ok (st', affected) ∧
          sumBy Stock.reserved_quantity pid st'.stocks =
            sumBy Stock.reserved_quantity pid st.stocks + q ∧
          st'.movements = st.movements) := by
  refine ⟨?_, ?_, ?_, ?_⟩
  · intro products st pid q rid rt notes mt p hfind hav
    simp only [remove_stock, hfind]
    rw [if_pos hav]
  · intro st pid q hav
    simp only [reserve_stock]
    rw [if_pos hav]
  · intro products st pid q rid rt notes mt hfound hpid hq hcover hnd
    obtain ⟨st', affected, m, hok, -, hmov, htot, -, -⟩ :=
      remove_stock_ok_general products st pid q rid rt notes mt hfound hpid hq
        hcover hnd
    exact ⟨st', affected, m, hok, hmov, htot⟩
  · intro st pid q hq hcover hnd
    obtain ⟨st', affected, hok, hres, -, hmov, -⟩ :=
      reserve_stock_ok_general st pid q hq hcover hnd
    exact ⟨st', affected, hok, hres, hmov⟩

/-- Witness for C4 at the concrete fixtures: a request of 99 against 35
available fails with the reported numbers; a request of 8 succeeds and
lowers the total by exactly 8. -/
theorem claim_C4_allocator_all_or_nothing_witness :
    remove_stock exampleProducts exampleInv 1 99 none none none .sale =
      .error (.insufficientStock (availableStockByProduct exampleInv 1) 99) ∧
    (∃ st' affected m,
      remove_stock exampleProducts exampleInv 1 8 none none none .sale =
        .ok (st', affected) ∧
        st'.movements = exampleInv.movements ++ [m] ∧
        totalStockByProduct st' 1 = totalStockByProduct exampleInv 1 - 8) :=
  ⟨claim_C4_allocator_all_or_nothing.1 exampleProducts exampleInv 1 99 none none
      none .sale ⟨1, true⟩ (by decide) (by decide),
   claim_C4_allocator_all_or_nothing.2.2.1 exampleProducts exampleInv 1 8 none
      none none .sale (by decide) (by decide) (by decide) (by decide) (by decide)⟩

/-- C5: for a nonempty interval, `check_availability` returns false
exactly when some appointment of the practitioner with status in
{scheduled, confirmed, in_progress} satisfies the half-open overlap test
`start < apptEnd ∧ apptStart < end`; touching boundaries do not count.
Concretely, against a confirmed 10:00–10:30 appointment: [10:15, 10:45)
is rejected, [10:30, 11:00) and [09:30, 10:00) are available. -/
theorem claim_C5_availability_iff_overlap :
    (∀ (appts : List Appointment) (s e vet : Nat),
      s < e → (∀ a ∈ appts, 0 < a.duration_minutes) →
      (check_availability appts s e vet = false ↔
        ∃ a ∈ appts, a.veterinarian_id = some vet ∧ blocking a.status = true ∧
          s < a.end_time ∧ a.appointment_date < e)) ∧
    check_availability [apptTenToTenThirty] 615 645 1 = false ∧
    check_availability [apptTenToTenThirty] 630 690 1 = true ∧
    check_availability [apptTenToTenThirty] 570 600 1 = true := by
  refine ⟨?_, by decide, by decide, by decide⟩
  intro appts s e vet hse hd
  exact check_availability_false_iff hse hd

/-- Witness for C5's general part at the concrete fixture. -/
theorem claim_C5_availability_iff_overlap_witness :
    check_availability [apptTenToTenThirty] 615 645 1 = false ↔
      ∃ a ∈ [apptTenToTenThirty], a.veterinarian_id = some 1 ∧
        blocking a.status = true ∧ 615 < a.end_time ∧ a.appointment_date < 645 :=
  claim_C5_availability_iff_overlap.1 [apptTenToTenThirty] 615 645 1 (by decide)
    (by decide)

/-- C6: the returned windows are exactly the 30-minute-step candidates
from 08:00 whose end does not exceed 18:00 and that do not
half-open-overlap any appointment of the practitioner with blocking
status; they come in strictly increasing chronological order; and with
zero appointments and 30-minute duration exactly 20 windows are
returned. -/
theorem claim_C6_slot_generation :
    (∀ (appts : List Appointment) (dayBase vet dur s e : Nat),
      (s, e) ∈ get_availability_slots appts dayBase vet dur ↔
        (∃ k, s = dayBase + 8 * 60 + 30 * k) ∧ e = s + dur ∧
          e ≤ dayBase + 18 * 60 ∧
          ∀ a ∈ appts, a.veterinarian_id = some vet → blocking a.status = true →
            ¬(s < a.end_time ∧ a.appointment_date < e)) ∧
    (∀ (appts : List Appointment) (dayBase vet dur : Nat),
      ((get_availability_slots appts dayBase vet dur).map Prod.fst).Pairwise
        (· < ·)) ∧
    (get_availability_slots [] 0 1 30).length = 20 := by
  refine ⟨?_, ?_, ?_⟩
  · intro appts dayBase vet dur s e
    simp only [get_availability_slots]
    rw [mem_slotsFrom]
    constructor
    · rintro ⟨⟨k, rfl⟩, rfl, hle, hfree⟩
      exact ⟨⟨k, rfl⟩, rfl, hle, (slotFree_iff appts vet _ _).mp hfree⟩
    · rintro ⟨⟨k, rfl⟩, rfl, hle, hfree⟩
      exact ⟨⟨k, rfl⟩, rfl, hle, (slotFree_iff appts vet _ _).mpr hfree⟩
  · intro appts dayBase vet dur
    simp only [get_availability_slots]
    exact slotsFrom_chronological _ _ _ _
  · simp only [get_availability_slots]
    rw [slotsFrom_eq_range']
    decide

/-- Witness for C6's characterization at a concrete slot: 10:30–11:00 is
free next to the 10:00–10:30 appointment. -/
theorem claim_C6_slot_generation_witness :
    (630, 660) ∈ get_availability_slots [apptTenToTenThirty] 0 1 30 :=
  (claim_C6_slot_generation.1 [apptTenToTenThirty] 0 1 30 630 660).mpr
    ⟨⟨5, by decide⟩, by decide, by decide, by decide⟩


/-- C7 counterexample: the claim says field modification requires status
in {scheduled, confirmed, in_progress} and fails otherwise. In the
source, `update_appointment` performs no status check: on a completed
appointment (not modifiable by the entity's own `can_be_modified`), an
update succeeds and mutates the record. -/
theorem claim_C7_counterexample_update_completed :
    completedAppt.status = .completed ∧
    completedAppt.can_be_modified = false ∧
    update_appointment completedAppt { notes := some "edited" } 0 =
      .ok { completedAppt with notes := some "edited" } := by
  decide

/-- C7 amended: confirm requires scheduled, start requires confirmed,
complete requires in_progress, and cancel requires a modifiable status;
each fails with the corresponding invalid-transition error from any other
source status, leaving the appointment unpersisted. Field modification
through `update_appointment`, however, performs no status check and
succeeds from any status (only a past-date move is rejected). The
scenario holds: complete() on a scheduled appointment fails, while
confirm() then start() then complete() ends with status completed. -/
theorem claim_C7_transitions_amended :
    (∀ a : Appointment, a.status ≠ .scheduled →
      confirm_appointment a = .error .onlyScheduledCanBeConfirmed) ∧
    (∀ a : Appointment, a.status = .scheduled →
      confirm_appointment a = .ok { a with status := .confirmed }) ∧
    (∀ a : Appointment, a.status ≠ .confirmed →
      start_appointment a = .error .onlyConfirmedCanBeStarted) ∧
    (∀ a : Appointment, a.status = .confirmed →
      start_appointment a = .ok { a with status := .in_progress }) ∧
    (∀ (a : Appointment) (n : Option String), a.status ≠ .in_progress →
      complete_appointment a n = .error .onlyInProgressCanBeCompleted) ∧
    (∀ (a : Appointment) (n : Option String) (b : Appointment),
      complete_appointment a n = .ok b →
        a.status = .in_progress ∧ b.status = .completed) ∧
    (∀ (a : Appointment) (r : Option String), a.can_be_modified = false →
      cancel_appointment a r = .error .cannotBeCancelled) ∧
    (∀ (a : Appointment) (r : Option String) (b : Appointment),
      cancel_appointment a r = .ok b →
        a.can_be_modified = true ∧ b.status = .cancelled) ∧
    (∀ (a : Appointment) (upd : AppointmentUpdate) (now : Nat),
      upd.appointment_date = none →
      ∃ b, update_appointment a upd now = .ok b) ∧
    complete_appointment { apptTenToTenThirty with status := .scheduled } none =
      .error .onlyInProgressCanBeCompleted ∧
    (confirm_appointment { apptTenToTenThirty with status := .scheduled } >>=
        start_appointment >>= (complete_appointment · none)).toOption.map
      Appointment.status = some .completed := by
  refine ⟨?_, ?_, ?_, ?_, ?_, ?_, ?_, ?_, ?_, by decide, by decide⟩
  · intro a h
    rw [confirm_appointment, if_pos h]
  · intro a h
    rw [confirm_appointment, if_neg (fun hc => hc h)]
  · intro a h
    rw [start_appointment, if_pos h]
  · intro a h
    rw [start_appointment, if_neg (fun hc => hc h)]
  · intro a n h
    rw [complete_appointment, if_pos h]
  · intro a n b h
    rw [complete_appointment] at h
    by_cases hs : a.status ≠ .in_progress
    · rw [if_pos hs] at h
      exact Except.noConfusion h
    · push_neg at hs
      rw [if_neg (fun hc => hc hs)] at h
      rw [Appointment.mark_as_completed.eq_def, if_neg (fun hc => hc hs)] at h
      have hb := Except.ok.injEq .. ▸ h
      exact ⟨hs, by rw [← hb]⟩
  · intro a r h
    rw [cancel_appointment, if_pos (by rw [h]; rfl)]
  · intro a r b h
    rw [cancel_appointment] at h
    cases hc : a.can_be_modified with
    | false =>
      rw [if_pos (by rw [hc]; rfl)] at h
      exact Except.noConfusion h
    | true =>
      rw [if_neg (by rw [hc]; simp)] at h
      rw [Appointment.cancel.eq_def, if_neg (by rw [hc]; simp)] at h
      have hb := Except.ok.injEq .. ▸ h
      exact ⟨rfl, by rw [← hb]⟩
  · intro a upd now h
    exact ⟨_, by simp only [update_appointment, h]; rfl⟩

/-- Witness for C7's amended transition rules at a concrete appointment. -/
theorem claim_C7_transitions_amended_witness :
    confirm_appointment completedAppt = .error .onlyScheduledCanBeConfirmed ∧
    (∃ b, update_appointment completedAppt { notes := some "x" } 0 = .ok b) :=
  ⟨claim_C7_transitions_amended.1 completedAppt (by decide),
   claim_C7_transitions_amended.2.2.2.2.2.2.2.2.1 completedAppt
     { notes := some "x" } 0 rfl⟩


/-- C8 counterexample: the claim says every outbound consume, `return`
included, stores the movement quantity as `-q`. In the source,
`StockMovement.__post_init__` treats `return` as an inbound type and
flips the negative quantity back to positive: consuming 3 units as a
`return` stores +3, not -3. -/
theorem claim_C8_counterexample_return_positive :
    remove_stock exampleProducts exampleInv 1 3 none none none .«return» =
      .ok ({ stocks := [lotNoExp, lotJune, lotMarchAfter3],
             movements := [returnMovement3] }, [lotMarchAfter3]) ∧
    returnMovement3.quantity = 3 ∧ ((3 : Int) = -3 → False) := by
  decide

/-- C8 amended: for a successful consume of q > 0 with movement type
`sale`, `expired`, or `damaged`, exactly one movement is appended for the
whole operation and its stored quantity equals -q; for `return` (an
inbound type in the source) the sign normalization stores +q instead. -/
theorem claim_C8_outbound_sign_amended :
    ∀ (products : List Product) (st : InvState) (pid q : Int)
      (rid : Option Int) (rt notes : Option String) (mt : StockMovementType),
      (mt = .sale ∨ mt = .expired ∨ mt = .damaged) →
      (products.find? fun p => p.id == pid).isSome → 0 < pid → 0 < q →
      q ≤ availableStockByProduct st pid → (st.stocks.map Stock.id).Nodup →
      ∃ st' affected,
        remove_stock products st pid q rid rt notes mt = .ok (st', affected) ∧
          st'.movements = st.movements ++
            [{ id := none, product_id := pid, movement_type := mt,
               quantity := -q, reference_id := rid, reference_type := rt,
               notes := notes, created_by := none }] := by
  intro products st pid q rid rt notes mt hmt hfound hpid hq hcover hnd
  obtain ⟨st', affected, m, hok, hm, hmov, -, -, -⟩ :=
    remove_stock_ok_general products st pid q rid rt notes mt hfound hpid hq
      hcover hnd
  have hmt' : mt ≠ .purchase ∧ mt ≠ .«return» := by
    rcases hmt with rfl | rfl | rfl <;>
      exact ⟨fun hc => StockMovementType.noConfusion hc,
             fun hc => StockMovementType.noConfusion hc⟩
  have hmake := StockMovement.make_of_neg pid (-q) mt rid rt notes none hpid
    (by omega) hmt'
  rw [hm] at hmake
  have hmeq := Except.ok.injEq .. ▸ hmake
  exact ⟨st', affected, hok, by rw [hmov, hmeq]⟩

/-- Witness for C8's amended rule at the concrete fixture: a sale of 8
appends one movement stored as -8. -/
theorem claim_C8_outbound_sign_amended_witness :
    ∃ st' affected,
      remove_stock exampleProducts exampleInv 1 8 none none none .sale =
        .ok (st', affected) ∧
        st'.movements = exampleInv.movements ++
          [{ id := none, product_id := 1, movement_type := .sale, quantity := -8,
             reference_id := none, reference_type := none, notes := none,
             created_by := none }] :=
  claim_C8_outbound_sign_amended exampleProducts exampleInv 1 8 none none none
    .sale (Or.inl rfl) (by decide) (by decide) (by decide) (by decide) (by decide)

/-- C9 counterexample: the claim says a release of more than the total
reserved quantity fails with an over-release error before any mutation.
In the source, `release_reservation` performs no such check: with 2 units
reserved, releasing 5 succeeds and simply clears the reservation. -/
theorem claim_C9_counterexample_overrelease_succeeds :
    sumBy Stock.reserved_quantity 1 releaseState.stocks = 2 ∧
    release_reservation releaseState 1 5 =
      .ok ({ stocks := [releasedLot], movements := [] }, [releasedLot]) ∧
    releasedLot.reserved_quantity = 0 := by
  decide

/-- C9 amended: `release_reservation` never fails on a non-negative
request over valid rows; it walks the product's lots with positive
reservations in stored order and releases `min(requested, total
reserved)`, writing no movement. -/
theorem claim_C9_release_clamps_amended :
    ∀ (st : InvState) (pid q : Int),
      0 ≤ q → (∀ s ∈ st.stocks, 0 ≤ s.reserved_quantity) →
      (st.stocks.map Stock.id).Nodup →
      ∃ st' affected,
        release_reservation st pid q = .ok (st', affected) ∧
          sumBy Stock.reserved_quantity pid st'.stocks =
            sumBy Stock.reserved_quantity pid st.stocks -
              min q (sumBy Stock.reserved_quantity pid st.stocks) ∧
          st'.movements = st.movements := by
  intro st pid q h0 hval hnd
  obtain ⟨st', affected, hok, hres, -, hmov, -⟩ :=
    release_reservation_ok_general st pid q h0 hval hnd
  exact ⟨st', affected, hok, hres, hmov⟩

/-- Witness for C9's amended rule at the concrete fixture: releasing 5
against 2 reserved releases exactly 2. -/
theorem claim_C9_release_clamps_amended_witness :
    ∃ st' affected,
      release_reservation releaseState 1 5 = .ok (st', affected) ∧
        sumBy Stock.reserved_quantity 1 st'.stocks =
          sumBy Stock.reserved_quantity 1 releaseState.stocks -
            min 5 (sumBy Stock.reserved_quantity 1 releaseState.stocks) ∧
        st'.movements = releaseState.movements :=
  claim_C9_release_clamps_amended releaseState 1 5 (by decide) (by decide)
    (by decide)

/-- C10: a `StockMovement` with quantity 0 is rejected at construction
for every movement type, whatever `StockMovement.make` accepts has a
nonzero stored quantity, and consequently every movement an `add_stock`,
`remove_stock`, or `adjust_stock` call appends to the ledger has nonzero
quantity. -/
theorem claim_C10_no_zero_movements :
    (∀ (pid : Int) (mt : StockMovementType) (rid : Option Int)
        (rt notes : Option String) (cb : Option Int),
      ∃ e, StockMovement.make pid mt 0 rid rt notes cb = .error e) ∧
    (∀ (pid q : Int) (mt : StockMovementType) (rid : Option Int)
        (rt notes : Option String) (cb : Option Int) (m : StockMovement),
      StockMovement.make pid mt q rid rt notes cb = .ok m → m.quantity ≠ 0) ∧
    (∀ (products : List Product) (st : InvState) (pid qty : Int)
        (exp : Option Nat) (batch loc : Option String) (rid : Option Int)
        (rt notes : Option String) (newId : Nat) (st' : InvState) (stock : Stock),
      add_stock products st pid qty exp batch loc rid rt notes newId
          = .ok (st', stock) →
      ∀ m ∈ st'.movements, m ∈ st.movements ∨ m.quantity ≠ 0) ∧
    (∀ (products : List Product) (st : InvState) (pid q : Int)
        (rid : Option Int) (rt notes : Option String) (mt : StockMovementType)
        (st' : InvState) (affected : List Stock),
      remove_stock products st pid q rid rt notes mt = .ok (st', affected) →
      ∀ m ∈ st'.movements, m ∈ st.movements ∨ m.quantity ≠ 0) ∧
    (∀ (st : InvState) (pid newq : Int) (reason : String) (user : Option Int)
        (newId : Nat) (st' : InvState) (stock : Stock),
      adjust_stock st pid newq reason user newId = .ok (st', stock) →
      ∀ m ∈ st'.movements, m ∈ st.movements ∨ m.quantity ≠ 0) := by
  refine ⟨?_, ?_, ?_, ?_, ?_⟩
  · intro pid mt rid rt notes cb
    exact StockMovement.make_zero_error pid mt rid rt notes cb
  · intro pid q mt rid rt notes cb m h
    exact StockMovement.make_quantity_ne_zero h
  · intro products st pid qty exp batch loc rid rt notes newId st' stock h m hm
    obtain ⟨m0, hm0, hmov⟩ := add_stock_ok_inv h
    rw [hmov] at hm
    rcases List.mem_append.mp hm with hold | hnew
    · exact Or.inl hold
    · rcases List.mem_singleton.mp hnew with rfl
      exact Or.inr (StockMovement.make_quantity_ne_zero hm0)
  · intro products st pid q rid rt notes mt st' affected h m hm
    obtain ⟨-, m0, hm0, hmov⟩ := remove_stock_run_inv h
    rw [hmov] at hm
    rcases List.mem_append.mp hm with hold | hnew
    · exact Or.inl hold
    · rcases List.mem_singleton.mp hnew with rfl
      exact Or.inr (StockMovement.make_quantity_ne_zero hm0)
  · intro st pid newq reason user newId st' stock h m hm
    obtain ⟨m0, hm0, hmov⟩ := adjust_stock_ok_inv h
    rw [hmov] at hm
    rcases List.mem_append.mp hm with hold | hnew
    · exact Or.inl hold
    · rcases List.mem_singleton.mp hnew with rfl
      exact Or.inr (StockMovement.make_quantity_ne_zero hm0)

/-- Witness for C10 at concrete inputs: a zero-quantity sale movement is
rejected, and the movement recorded by the fixture consume is nonzero. -/
theorem claim_C10_no_zero_movements_witness :
    (∃ e, StockMovement.make 1 .sale 0 none none none none = .error e) ∧
    (∀ m ∈ exampleInvAfter.movements, m ∈ exampleInv.movements ∨ m.quantity ≠ 0) :=
  ⟨claim_C10_no_zero_movements.1 1 .sale none none none none,
   claim_C10_no_zero_movements.2.2.2.1 exampleProducts exampleInv 1 8 none none
     none .sale exampleInvAfter exampleAffected (by decide)⟩

end VetCare
